import Mathlib

/-!
Identity store (`internal/store/store.go`).

A shallow embedding of the identity repository of the identity service:
`uniqueStrings`, `UpsertUser`, `UpsertAgent`, `upsertIdentity`, `SetGroups`,
`GetIdentity` and `UpdateIdentity`, together with the part of the `errgo`
error discipline and of the MongoDB collection semantics that these functions
rely on.

Conventions of the embedding.

* A Go `string` is a Lean `String`; Go compares strings bytewise, which on
  valid UTF-8 is the lexicographic order of the code points, i.e. the order of
  `String.data`.
* A Go `error` result is an `Option Error` (`none` is `nil`).
* A method of `*Store` that writes to the identities collection takes the
  collection and returns the error together with the collection afterwards.
* The backing database is assumed reachable: the only faults of the
  collection are the ones MongoDB itself reports for the request (duplicate
  key, no document found, modifier applied to a value of the wrong type).
* The collection is the list of its documents. A document is the list of its
  fields, and the generated `_id` is left out. A dotted path `extrainfo.k` is
  kept as one field name: this is the entry `k` of the embedded document
  `extrainfo` as long as the keys of the extra-info are field names (not
  empty, no dot, no leading dollar sign).
* The unique indexes of `ensureIndexes` are checked on every write of the
  collection, and `wf` says that they hold; `wf` holds of the empty
  collection and is kept by every operation (`Upsert_wf`, `UpsertUser_wf`,
  `UpsertAgent_wf`).
-/

namespace Store

/-! Errors (`errgo`). -/

/-- Error values that the source compares by identity. -/
inductive Sentinel
  | ErrInvalidData
  | ErrAlreadyExists
  | ErrNotFound
  | ErrServiceUnavailable
  | ErrLimitExceeded
  | mgoErrNotFound
  | mgoDup
  | mgoWriteError
deriving DecidableEq

/-- A Go error: either one of the sentinel values, or an error made by
`errgo` that carries a message and, possibly, an explicit cause. -/
inductive Error
  | sentinel (e : Sentinel)
  | errgo (msg : String) (cause : Option Sentinel)
deriving DecidableEq

/-- The message of an error (`err.Error()`), without formatting of arguments. -/
def Error.msg : Error → String
  | .sentinel _ => ""
  | .errgo m _ => m

/-- The function `errgo.Cause`: the explicit cause when there is one, the error itself otherwise. -/
def Cause : Error → Error
  | .errgo _ (some c) => .sentinel c
  | e => e

/-- The constructor `errgo.New`. -/
def New (msg : String) : Error := .errgo msg none

/-- The constructor `errgo.WithCausef(underlying, cause, msg)`. -/
def WithCausef (_underlying : Option Error) (cause : Sentinel) (msg : String) : Error :=
  .errgo msg (some cause)

/-- The function `errgo.Mask(err, errgo.Is(p₁), …)`: `nil` stays `nil`; otherwise a new
error whose cause is kept only when it is one of the values let through. -/
def Mask (err : Option Error) (pass : List Sentinel) : Option Error :=
  match err with
  | none => none
  | some e =>
    match Cause e with
    | .sentinel c => if c ∈ pass then some (.errgo e.msg (some c)) else some (.errgo e.msg none)
    | _ => some (.errgo e.msg none)

/-- The test `mgo.IsDup`. -/
def IsDup (err : Option Error) : Bool :=
  err == some (.sentinel .mgoDup)

/-! The function `uniqueStrings`. -/

/-- The function `sort.Strings`: sorts into ascending order of the strings. -/
def sortStrings (ss : List String) : List String :=
  ss.insertionSort (fun a b => a.data ≤ b.data)

/-- The loop of `uniqueStrings`: `prev` is the last string kept, `out` the
strings kept so far, the third argument what is left of `ss[1:]`. -/
def uniqueLoop : String → List String → List String → List String
  | _, out, [] => out
  | prev, out, s :: rest =>
    if s = prev then uniqueLoop prev out rest else uniqueLoop s (out ++ [s]) rest

/-- The function `uniqueStrings` removes all duplicates from the supplied strings; the
values will be in lexicographic order. -/
def uniqueStrings (ss : List String) : List String :=
  if ss.length < 2 then ss
  else
    match sortStrings ss with
    | [] => []
    | s0 :: rest => uniqueLoop s0 [s0] rest

/-! BSON documents (`bson.D`) and the identity document. -/

/-- A Go `time.Time`, as the distance of the instant from the zero time, at
the resolution of the database. -/
structure Time where
  instant : Int
deriving DecidableEq

/-- The method `time.Time.IsZero`. -/
def Time.IsZero (t : Time) : Bool := t.instant == 0

/-- Modelled from the spec: the type `mongodoc.PublicKey` (a public key of an
agent, held as its bytes), whose declaration is not among the sources. -/
structure PublicKey where
  Key : List Nat
deriving DecidableEq

/-- The values that the store writes into a document: a string, a time, an
array of strings, an array of public keys, and the list given to `$each`
under `$addToSet`. -/
inductive Value
  | str (s : String)
  | time (t : Time)
  | strs (ss : List String)
  | keys (ks : List PublicKey)
  | each (ss : List String)
deriving DecidableEq

/-- The type `bson.D`: an ordered list of `bson.DocElem`. A stored document
is one too; a dotted field path such as `extrainfo.k` is kept as one key. -/
abbrev D := List (String × Value)

/-- Modelled from the spec: the type `mongodoc.Identity` (the identity
record of section 3 of the specification), whose declaration is not among
the sources. `ExtraInfo` is a Go map, given by its entries. -/
structure Identity where
  Username : String
  ExternalID : String
  Owner : String
  Email : String
  GravatarID : String
  FullName : String
  Groups : List String
  SSHKeys : List String
  PublicKeys : List PublicKey
  ExtraInfo : List (String × String)
  LastLogin : Option Time
deriving DecidableEq

/-! The MongoDB collection behind `s.DB.Identities()`. -/

/-- A collection: its documents, in insertion order. -/
abbrev Collection := List D

/-- A selector of equality conditions matches a document when every field of
the selector has that value in the document. -/
def matchesSel (selector : D) (d : D) : Bool :=
  selector.all (fun kv => d.lookup kv.1 == some kv.2)

/-- Writes one field of a document: in place when the field is there, at the
end otherwise. -/
def setField : D → String → Value → D
  | [], k, v => [(k, v)]
  | (k', v') :: rest, k, v =>
    if k' = k then (k, v) :: rest else (k', v') :: setField rest k v

/-- The elements of an array after `$addToSet` with `$each`: each new
element is appended unless it is already there. -/
def addEach (cur : List String) (ss : List String) : List String :=
  ss.foldl (fun acc s => if s ∈ acc then acc else acc ++ [s]) cur

/-- The modifier `$set` for one field. -/
def applySet (d : D) (kv : String × Value) : Option D :=
  some (setField d kv.1 kv.2)

/-- The modifier `$addToSet` for one field: the field must be absent or an
array. -/
def applyAddToSet (d : D) (kv : String × Value) : Option D :=
  match kv.2 with
  | .each ss =>
    match d.lookup kv.1 with
    | none => some (setField d kv.1 (.strs (addEach [] ss)))
    | some (.strs cur) => some (setField d kv.1 (.strs (addEach cur ss)))
    | some _ => none
  | .str s =>
    match d.lookup kv.1 with
    | none => some (setField d kv.1 (.strs [s]))
    | some (.strs cur) => some (setField d kv.1 (.strs (addEach cur [s])))
    | some _ => none
  | _ => none

/-- The modifier `$pullAll` for one field: removes every listed value from
the array; an absent field stays absent. -/
def applyPullAll (d : D) (kv : String × Value) : Option D :=
  match kv.2 with
  | .strs ss =>
    match d.lookup kv.1 with
    | none => some d
    | some (.strs cur) => some (setField d kv.1 (.strs (cur.filter (fun g => !(ss.contains g)))))
    | some _ => none
  | _ => none

/-- Applies the fields of one modifier in order. -/
def applyFields (f : D → String × Value → Option D) : D → D → Option D
  | d, [] => some d
  | d, kv :: rest =>
    match f d kv with
    | none => none
    | some d' => applyFields f d' rest

/-- Applies one update operator to a document. -/
def applyOp (d : D) (op : String × D) : Option D :=
  if op.1 = "$set" then applyFields applySet d op.2
  else if op.1 = "$addToSet" then applyFields applyAddToSet d op.2
  else if op.1 = "$pullAll" then applyFields applyPullAll d op.2
  else none

/-- Applies an update document: an update without operators replaces the
document, otherwise the operators are applied in order; `none` is a write
error. -/
def applyUpdate (update : List (String × D)) (d : D) : Option D :=
  match update with
  | [] => some []
  | _ => update.foldl (fun acc op => acc.bind (fun x => applyOp x op)) (some d)

/-- A unique index of `ensureIndexes`. -/
structure Index where
  Key : String
  Unique : Bool
  Sparse : Bool
deriving DecidableEq

/-- The indexes that `ensureIndexes` puts on the identities collection. -/
def identityIndexes : List Index :=
  [{ Key := "username", Unique := true, Sparse := false },
   { Key := "external_id", Unique := true, Sparse := true }]

/-- Whether writing document `d` next to the documents `others` breaks the
index: a sparse index holds only the documents that have the field. -/
def indexViolated (ix : Index) (d : D) (others : List D) : Bool :=
  ix.Unique && !(ix.Sparse && (d.lookup ix.Key).isNone) &&
    others.any (fun e => e.lookup ix.Key == d.lookup ix.Key)

/-- Whether writing `d` next to `others` breaks one of the indexes. -/
def dupKey (d : D) (others : List D) : Bool :=
  identityIndexes.any (fun ix => indexViolated ix d others)

/-- Splits a collection at the first document that satisfies `p`. -/
def findSplit (p : D → Bool) : List D → Option (List D × D × List D)
  | [] => none
  | d :: rest =>
    if p d then some ([], d, rest)
    else (findSplit p rest).map (fun r => (d :: r.1, r.2.1, r.2.2))

/-- The method `Collection.Upsert` of mgo: updates the first document that
matches the selector, or inserts the selector's fields with the update
applied; the write is refused when it breaks a unique index. -/
def Upsert (c : Collection) (selector : D) (update : List (String × D)) :
    Option Error × Collection :=
  match findSplit (matchesSel selector) c with
  | some (pre, d, post) =>
    match applyUpdate update d with
    | none => (some (.sentinel .mgoWriteError), c)
    | some d' =>
      if dupKey d' (pre ++ post) then (some (.sentinel .mgoDup), c)
      else (none, pre ++ d' :: post)
  | none =>
    match applyUpdate update selector with
    | none => (some (.sentinel .mgoWriteError), c)
    | some d' =>
      if dupKey d' c then (some (.sentinel .mgoDup), c)
      else (none, c ++ [d'])

/-- The method `Collection.Update` of mgo: updates the first document that
matches the selector, and fails with `mgo.ErrNotFound` when there is none. -/
def Update (c : Collection) (selector : D) (update : List (String × D)) :
    Option Error × Collection :=
  match findSplit (matchesSel selector) c with
  | some (pre, d, post) =>
    match applyUpdate update d with
    | none => (some (.sentinel .mgoWriteError), c)
    | some d' =>
      if dupKey d' (pre ++ post) then (some (.sentinel .mgoDup), c)
      else (none, pre ++ d' :: post)
  | none => (some (.sentinel .mgoErrNotFound), c)

/-- The query `Find(selector).One`: the first matching document, or
`mgo.ErrNotFound`. -/
def FindOne (c : Collection) (selector : D) : Except Error D :=
  match c.find? (matchesSel selector) with
  | some d => .ok d
  | none => .error (.sentinel .mgoErrNotFound)

/-- The unique indexes hold in the collection: no two documents clash on an
index of `ensureIndexes`. -/
def wf (c : Collection) : Prop :=
  c.Pairwise (fun a b => dupKey a [b] = false)

instance (c : Collection) : Decidable (wf c) := by
  unfold wf; infer_instance

/-! The functions of `store.go`. -/

/-- The two predicates of package `names` (`gopkg.in/juju/names.v2`) that
the store calls; the package is not part of the repository, so the store is
verified for every pair of predicates. -/
structure Names where
  IsValidUser : String → Bool
  IsValidUserName : String → Bool

/-- The call `strings.SplitN(s, "@", 2)`: the string itself when it holds
no `@`, otherwise what stands before and after the first `@`. -/
def SplitN2 (s : String) : List String :=
  match s.data.span (fun ch => ch != '@') with
  | (_, []) => [s]
  | (pre, _ :: post) => [String.mk pre, String.mk post]

/-- The method `Store.upsertIdentity`. -/
def upsertIdentity (s : Collection) (query set addToSet : D) : Option Error × Collection :=
  let update : List (String × D) := []
  let update := if set.length > 0 then update ++ [("$set", set)] else update
  let update := if addToSet.length > 0 then update ++ [("$addToSet", addToSet)] else update
  let r := Upsert s query update
  if IsDup r.1 then (some (WithCausef none .ErrAlreadyExists ""), r.2)
  else (Mask r.1 [], r.2)

/-- The method `Store.UpsertUser`. -/
def UpsertUser (names : Names) (s : Collection) (doc : Identity) : Option Error × Collection :=
  if !names.IsValidUser doc.Username then
    (some (WithCausef none .ErrInvalidData "invalid username %q"), s)
  else if doc.ExternalID = "" then
    (some (New "no external_id specified"), s)
  else
    let query : D := [("username", .str doc.Username), ("external_id", .str doc.ExternalID)]
    let set : D := [("email", .str doc.Email), ("gravatarid", .str doc.GravatarID),
      ("fullname", .str doc.FullName)]
    let set : D :=
      match doc.LastLogin with
      | some t => if !t.IsZero then set ++ [("lastlogin", .time t)] else set
      | none => set
    let set : D := set ++ doc.ExtraInfo.map (fun kv => ("extrainfo." ++ kv.1, Value.str kv.2))
    let addToSet : D := []
    let addToSet : D :=
      if doc.Groups.length > 0 then addToSet ++ [("groups", .each doc.Groups)] else addToSet
    let addToSet : D :=
      if doc.SSHKeys.length > 0 then addToSet ++ [("ssh_keys", .each doc.SSHKeys)] else addToSet
    let r := upsertIdentity s query set addToSet
    if r.1.map Cause = some (.sentinel .ErrAlreadyExists) then
      (some (WithCausef none .ErrAlreadyExists
        "cannot add user: duplicate username or external_id"), r.2)
    else (Mask r.1 [], r.2)

/-- The method `Store.UpsertAgent`. -/
def UpsertAgent (names : Names) (s : Collection) (doc : Identity) : Option Error × Collection :=
  match SplitN2 doc.Username with
  | name :: owner :: _ =>
    if !names.IsValidUserName name then
      (some (WithCausef none .ErrInvalidData "invalid username %q"), s)
    else if !names.IsValidUser owner then
      (some (WithCausef none .ErrInvalidData "invalid username %q"), s)
    else if !names.IsValidUser doc.Owner then
      (some (WithCausef none .ErrInvalidData "invalid owner %q"), s)
    else
      let query : D := [("username", .str doc.Username), ("owner", .str doc.Owner)]
      let set : D := [("groups", .strs doc.Groups), ("public_keys", .keys doc.PublicKeys)]
      let set : D :=
        match doc.LastLogin with
        | some t => if !t.IsZero then set ++ [("lastlogin", .time t)] else set
        | none => set
      let r := upsertIdentity s query set []
      (Mask r.1 [], r.2)
  | _ => (some (WithCausef none .ErrInvalidData "invalid username %q"), s)

/-- The method `Store.UpdateIdentity`. -/
def UpdateIdentity (s : Collection) (username : String) (update : List (String × D)) :
    Option Error × Collection :=
  let r := Update s [("username", .str username)] update
  match r.1 with
  | some err =>
    if Cause err = .sentinel .mgoErrNotFound then
      (some (WithCausef (some err) .ErrNotFound "user %q not found"), r.2)
    else (Mask (some err) [], r.2)
  | none => (none, r.2)

/-- The method `Store.SetGroups`. -/
def SetGroups (s : Collection) (username : String) (groups : List String) :
    Option Error × Collection :=
  let r := UpdateIdentity s username [("$set", [("groups", .strs (uniqueStrings groups))])]
  match r.1 with
  | some err => (Mask (some err) [.ErrNotFound], r.2)
  | none => (none, r.2)

/-- The method `Store.AddGroups`. -/
def AddGroups (s : Collection) (username : String) (groups : List String) :
    Option Error × Collection :=
  let r := UpdateIdentity s username [("$addToSet", [("groups", .each groups)])]
  match r.1 with
  | some err => (Mask (some err) [.ErrNotFound], r.2)
  | none => (none, r.2)

/-- The method `Store.RemoveGroups`. -/
def RemoveGroups (s : Collection) (username : String) (groups : List String) :
    Option Error × Collection :=
  let r := UpdateIdentity s username [("$pullAll", [("groups", .strs groups)])]
  match r.1 with
  | some err => (Mask (some err) [.ErrNotFound], r.2)
  | none => (none, r.2)

/-- The method `Store.SetPublicKeys`. -/
def SetPublicKeys (s : Collection) (username : String) (publickeys : List PublicKey) :
    Option Error × Collection :=
  let r := UpdateIdentity s username [("$set", [("public_keys", .keys publickeys)])]
  match r.1 with
  | some err => (Mask (some err) [.ErrNotFound], r.2)
  | none => (none, r.2)

/-- Strips the leading characters `p` from a list of characters, when it starts with them. -/
def stripLead : List Char → List Char → Option (List Char)
  | [], l => some l
  | _ :: _, [] => none
  | a :: p, b :: l => if a = b then stripLead p l else none

/-- Reading a string field of a stored document into a Go `string`. -/
def decodeStr (d : D) (k : String) : String :=
  match d.lookup k with
  | some (.str s) => s
  | _ => ""

/-- Reading an array field of a stored document into a Go `[]string`. -/
def decodeStrs (d : D) (k : String) : List String :=
  match d.lookup k with
  | some (.strs ss) => ss
  | _ => []

/-- Reading an array field of a stored document into a `[]mongodoc.PublicKey`. -/
def decodeKeys (d : D) (k : String) : List PublicKey :=
  match d.lookup k with
  | some (.keys ks) => ks
  | _ => []

/-- Reading a time field of a stored document into a Go `*time.Time`. -/
def decodeTime (d : D) (k : String) : Option Time :=
  match d.lookup k with
  | some (.time t) => some t
  | _ => none

/-- Reading the fields under `extrainfo` into a Go map, given by its entries. -/
def decodeExtraInfo (d : D) : List (String × String) :=
  d.filterMap (fun kv =>
    match stripLead "extrainfo.".data kv.1.data, kv.2 with
    | some k, .str v => some (String.mk k, v)
    | _, _ => none)

/-- Modelled from the spec: the decoding of a stored document into a
`mongodoc.Identity` (its field tags are not among the sources); the field
names are the ones that `UpsertUser` and `UpsertAgent` write. -/
def decodeIdentity (d : D) : Identity :=
  { Username := decodeStr d "username"
    ExternalID := decodeStr d "external_id"
    Owner := decodeStr d "owner"
    Email := decodeStr d "email"
    GravatarID := decodeStr d "gravatarid"
    FullName := decodeStr d "fullname"
    Groups := decodeStrs d "groups"
    SSHKeys := decodeStrs d "ssh_keys"
    PublicKeys := decodeKeys d "public_keys"
    ExtraInfo := decodeExtraInfo d
    LastLogin := decodeTime d "lastlogin" }

/-- The method `Store.GetIdentity`. -/
def GetIdentity (s : Collection) (username : String) : Except Error Identity :=
  match FindOne s [("username", .str username)] with
  | .ok d => .ok (decodeIdentity d)
  | .error err =>
    if Cause err = .sentinel .mgoErrNotFound then
      .error (WithCausef (some err) .ErrNotFound "user %q not found")
    else .error ((Mask (some err) []).getD err)

/-- A sample of the predicates of package `names`: a user name is a
non-empty string of letters and digits, a user is a user name, possibly
followed by `@` and a domain of the same form. -/
def sampleNames : Names :=
  { IsValidUserName := fun s => !s.data.isEmpty && s.data.all Char.isAlphanum
    IsValidUser := fun s =>
      match s.data.span (fun ch => ch != '@') with
      | (pre, []) => !pre.isEmpty && pre.all Char.isAlphanum
      | (pre, _ :: post) =>
        !pre.isEmpty && pre.all Char.isAlphanum && !post.isEmpty && post.all Char.isAlphanum }

/-! Auxiliary definitions for the proofs, and sample data. -/

/-- Writing a list of fields in order. -/
def setAll (d : D) (fs : D) : D := fs.foldl (fun acc kv => setField acc kv.1 kv.2) d

/-- The value that the decoded extra-info has for a key. -/
def extraGet (d : D) (k : String) : Option String := (decodeExtraInfo d).lookup k

/-- The selector of `UpsertUser`. -/
def userQuery (doc : Identity) : D :=
  [("username", .str doc.Username), ("external_id", .str doc.ExternalID)]

/-- The `lastlogin` entry that the upserts add to `$set`. -/
def lastLoginSet (ll : Option Time) : D :=
  match ll with
  | some t => if !t.IsZero then [("lastlogin", .time t)] else []
  | none => []

/-- The `$set` document of `UpsertUser`. -/
def userSet (doc : Identity) : D :=
  [("email", .str doc.Email), ("gravatarid", .str doc.GravatarID),
    ("fullname", .str doc.FullName)] ++
    (lastLoginSet doc.LastLogin ++
      doc.ExtraInfo.map (fun kv => ("extrainfo." ++ kv.1, Value.str kv.2)))

/-- One entry of the `$addToSet` document of `UpsertUser`. -/
def eachEntry (k : String) (ss : List String) : D :=
  if ss.length > 0 then [(k, .each ss)] else []

/-- The `$addToSet` document of `UpsertUser`. -/
def userAddToSet (doc : Identity) : D :=
  eachEntry "groups" doc.Groups ++ eachEntry "ssh_keys" doc.SSHKeys

/-- The update document that `upsertIdentity` sends. -/
def mkUpdate (set addToSet : D) : List (String × D) :=
  (if set.length > 0 then [("$set", set)] else []) ++
    (if addToSet.length > 0 then [("$addToSet", addToSet)] else [])

/-- The array field `k` of `d` after `$addToSet` of the non-empty list `ss`;
nothing is sent for an empty list. -/
def addArr (d : D) (k : String) (ss : List String) : D :=
  if ss.length > 0 then setField d k (.strs (addEach (decodeStrs d k) ss)) else d

/-- The document that `UpsertUser` writes over the document `d`. -/
def userDoc (doc : Identity) (d : D) : D :=
  addArr (addArr (setAll d (userSet doc)) "groups" doc.Groups) "ssh_keys" doc.SSHKeys

/-- A sample user document. -/
def bob : Identity :=
  { Username := "bob", ExternalID := "x1", Owner := "", Email := "bob@example.com",
    GravatarID := "g1", FullName := "Bob", Groups := ["b", "a", "a"], SSHKeys := ["k1"],
    PublicKeys := [], ExtraInfo := [("k1", "v1")], LastLogin := some ⟨0⟩ }

/-- The store after `bob` was upserted into the empty store. -/
def bobStore : Collection := (UpsertUser sampleNames [] bob).2

/-- A later document for the same user. -/
def bobLater : Identity :=
  { bob with Email := "bob@example.org", Groups := ["c"], SSHKeys := [],
             ExtraInfo := [("k1", "v2"), ("k2", "w")], LastLogin := some ⟨5⟩ }

/-- The record that `GetIdentity` returns for `bob` from `bobStore`. -/
def bobStored : Identity := { bob with Groups := ["b", "a"], LastLogin := none }

/-- The selector of `UpsertAgent`. -/
def agentQuery (doc : Identity) : D :=
  [("username", .str doc.Username), ("owner", .str doc.Owner)]

/-- The `$set` document of `UpsertAgent`. -/
def agentSet (doc : Identity) : D :=
  [("groups", .strs doc.Groups), ("public_keys", .keys doc.PublicKeys)] ++
    lastLoginSet doc.LastLogin

/-- The condition under which an agent document is accepted, in the words of the
specification: the username reads `name@owner`, split at its first `@`, with `name` a
valid user name and `owner` a valid user, and the owner field is a valid user. -/
def agentValid (names : Names) (doc : Identity) : Prop :=
  ∃ name owner : String, doc.Username = name ++ "@" ++ owner ∧ '@' ∉ name.data ∧
    names.IsValidUserName name = true ∧ names.IsValidUser owner = true ∧
    names.IsValidUser doc.Owner = true

/-- A sample agent document. -/
def agent : Identity :=
  { Username := "bot@bob", ExternalID := "", Owner := "bob", Email := "", GravatarID := "",
    FullName := "", Groups := ["g1"], SSHKeys := [], PublicKeys := [⟨[1, 2, 3]⟩],
    ExtraInfo := [], LastLogin := none }

/-- The store after `agent` was upserted into the empty store. -/
def agentStore : Collection := (UpsertAgent sampleNames [] agent).2

/-- The sample agent document with other groups and keys and a last-login. -/
def agentLater : Identity :=
  { agent with Groups := ["g2"], PublicKeys := [], LastLogin := some ⟨7⟩ }

/-! The group mutators, the pool, the authorizer and the rendezvous store. -/

/-- The `groups` field of a stored document is absent or an array of strings, as it is in
every document that the methods of the store write. -/
def groupsTyped (d : D) : Bool :=
  match List.lookup "groups" d with
  | none => true
  | some (.strs _) => true
  | some _ => false

/-- The constructor `errgo.Notef(underlying, msg)`: the new error has no cause of its own
and hides the cause of the underlying error. -/
def Notef (_underlying : Error) (msg : String) : Error := .errgo msg none

/-- A session of the database (`*mgo.Session`). -/
structure Session where
  id : Nat
deriving DecidableEq

/-- The object `Store`, as far as `Pool.Get` is concerned: the session that its database
works on, absent in a store that `newStore` has just made. -/
structure Store where
  session : Option Session
deriving DecidableEq

/-- The method `Store.setSession`. -/
def Store.setSession (_s : Store) (session : Session) : Store :=
  { session := some session }

/-- The pool, at the moment of one call of `Get`: the request timeout of its parameters,
what `sessionPool.Get` answers for a timeout (package `limitpool` is taken as given), and
the store that `storePool.Get` hands out. -/
structure Pool where
  RequestTimeout : Nat
  sessionPoolGet : Nat → Except Error Session
  storePoolGet : Store

/-- The method `Pool.getSession`. -/
def Pool.getSession (p : Pool) : Option Session × Option Error :=
  match p.sessionPoolGet p.RequestTimeout with
  | .error err =>
    if err = .sentinel .ErrLimitExceeded then
      (none, some (WithCausef (some err) .ErrServiceUnavailable "too many mongo sessions in use"))
    else (none, some (Notef err "cannot get Session"))
  | .ok v => (some v, none)

/-- The method `Pool.Get`. -/
def Pool.Get (p : Pool) : Option Store × Option Error :=
  match p.getSession with
  | (_, some err) => (none, Mask (some err) [.ErrServiceUnavailable])
  | (none, none) => (none, none)
  | (some session, none) => (some (p.storePoolGet.setSession session), none)

/-- The type `bakery.Op`. -/
structure Op where
  Entity : String
  Action : String
deriving DecidableEq

/-- The callback `GetACL` that `NewPool` gives to the authorizer; `storeFromContext` and
`aclForOp` are defined outside the sources at hand and are taken as given. A missing ACL
(a nil slice) is `none`. -/
def GetACL {Ctx : Type} (storeFromContext : Ctx → Option Store)
    (aclForOp : Store → Op → Option (List String) × Option Error) (ctx : Ctx) (op : Op) :
    Option (List String) × Option Error :=
  match storeFromContext ctx with
  | none => (none, some (New "no store found"))
  | some store => aclForOp store op

/-- Modelled from the spec: an entry of the rendezvous store (section 3 of the
specification); the package `mgomeeting` itself is not among the sources. -/
structure Entry where
  id : String
  category : String
  address : String
  created : Time
deriving DecidableEq

/-- Modelled from the spec: whether a category matches the category given to the sweep,
which it does when that is a leading part of it; the empty one matches every category. -/
def categoryMatches (p : String) (category : String) : Bool :=
  p.data.isPrefixOf category.data

/-- Modelled from the spec: whether the sweep `RemoveOld(p, t)` removes an entry, which it
does when the category matches and the entry was created at `t` or before. -/
def isOld (p : String) (t : Time) (e : Entry) : Bool :=
  categoryMatches p e.category && decide (e.created.instant ≤ t.instant)

/-- Modelled from the spec: the operation `RemoveOld(categoryPrefix, cutoffTime)` of the
rendezvous store (section 4.2), whose code is not among the sources: it deletes the entries
that `isOld` selects and returns their ids, together with the store afterwards. -/
def RemoveOld (m : List Entry) (p : String) (t : Time) : List String × List Entry :=
  ((m.filter (isOld p t)).map Entry.id, m.filter (fun e => !isOld p t e))

/-- Modelled from the spec: the operation `Get(id)` of the rendezvous store (section 4.2):
the address when the id is present, an error with cause `NotFound` otherwise. -/
def meetingGet (m : List Entry) (id : String) : Except Error String :=
  match m.find? (fun e => e.id == id) with
  | some e => .ok e.address
  | none => .error (WithCausef none .ErrNotFound "rendezvous not found, probably expired")

/-- The entries of `TestRemoveOld`: `a0` to `a9` in category `a` and `b0` to `b9` in
category `b`, entry `i` created `i` seconds before `now`; times are in milliseconds. -/
def testEntries (now : Int) : List Entry :=
  (List.range 10).flatMap (fun i =>
    [{ id := "a" ++ toString i, category := "a", address := "a", created := ⟨now - 1000 * i⟩ },
     { id := "b" ++ toString i, category := "b", address := "b", created := ⟨now - 1000 * i⟩ }])

/-- A pool whose session pool answers with the given outcome. -/
def samplePool (r : Except Error Session) : Pool :=
  { RequestTimeout := 30, sessionPoolGet := fun _ => r, storePoolGet := { session := none } }

/-! Lemmas and the properties of the store. -/

theorem strLe_total (a b : String) : a.data ≤ b.data ∨ b.data ≤ a.data := le_total _ _

theorem strLe_trans {a b c : String} (h1 : a.data ≤ b.data) (h2 : b.data ≤ c.data) :
    a.data ≤ c.data := le_trans h1 h2

theorem str_lt_iff (a b : String) : a < b ↔ a.data < b.data := String.lt_iff_toList_lt

theorem str_lt_of_le_ne {a b : String} (h : a.data ≤ b.data) (hne : a ≠ b) :
    a.data < b.data := by
  refine lt_of_le_of_ne h ?_
  intro h'
  exact hne (String.ext h')

theorem sortStrings_sorted (ss : List String) :
    List.Sorted (fun a b : String => a.data ≤ b.data) (sortStrings ss) := by
  haveI : IsTotal String (fun a b => a.data ≤ b.data) := ⟨strLe_total⟩
  haveI : IsTrans String (fun a b => a.data ≤ b.data) := ⟨fun _ _ _ => strLe_trans⟩
  exact List.sorted_insertionSort _ ss

theorem sortStrings_perm (ss : List String) : (sortStrings ss).Perm ss :=
  List.perm_insertionSort _ ss

theorem uniqueLoop_spec (rest : List String) : ∀ (prev : String) (out : List String),
    out.Pairwise (fun a b => a.data < b.data) → prev ∈ out →
    (∀ y ∈ out, y.data ≤ prev.data) →
    List.Sorted (fun a b : String => a.data ≤ b.data) (prev :: rest) →
    (uniqueLoop prev out rest).Pairwise (fun a b => a.data < b.data) ∧
      ∀ x, x ∈ uniqueLoop prev out rest ↔ x ∈ out ∨ x ∈ rest := by
  induction rest with
  | nil => intro prev out hp _ _ _; simp [uniqueLoop, hp]
  | cons s rest ih =>
    intro prev out hp hmem hle hs
    have hs' := List.sorted_cons.mp hs
    have hrest := List.sorted_cons.mp hs'.2
    by_cases h : s = prev
    · subst h
      have := ih s out hp hmem hle hs'.2
      simp only [uniqueLoop, if_true]
      refine ⟨this.1, fun x => ?_⟩
      rw [this.2 x]
      constructor
      · rintro (h | h)
        · exact Or.inl h
        · exact Or.inr (List.mem_cons_of_mem _ h)
      · rintro (h | h)
        · exact Or.inl h
        · rcases List.mem_cons.mp h with h | h
          · exact Or.inl (h ▸ hmem)
          · exact Or.inr h
    · have hlt : prev.data < s.data :=
        str_lt_of_le_ne (hs'.1 s (List.mem_cons_self _ _)) (fun e => h e.symm)
      have := ih s (out ++ [s])
        (by
          rw [List.pairwise_append]
          refine ⟨hp, List.pairwise_singleton _ _, ?_⟩
          intro a ha b hb
          rw [List.mem_singleton] at hb
          subst hb
          exact lt_of_le_of_lt (hle a ha) hlt)
        (by simp)
        (by
          intro y hy
          rcases List.mem_append.mp hy with hy | hy
          · exact le_of_lt (lt_of_le_of_lt (hle y hy) hlt)
          · rw [List.mem_singleton] at hy
            subst hy
            exact le_refl _)
        hs'.2
      simp only [uniqueLoop, if_neg h]
      refine ⟨this.1, fun x => ?_⟩
      rw [this.2 x]
      simp only [List.mem_append, List.mem_singleton, List.mem_cons]
      tauto

theorem uniqueStrings_spec (ss : List String) :
    (uniqueStrings ss).Pairwise (fun a b => a.data < b.data) ∧
      ∀ x, x ∈ uniqueStrings ss ↔ x ∈ ss := by
  unfold uniqueStrings
  by_cases hlen : ss.length < 2
  · rw [if_pos hlen]
    refine ⟨?_, fun _ => Iff.rfl⟩
    match ss, hlen with
    | [], _ => exact List.Pairwise.nil
    | [a], _ => exact List.pairwise_singleton _ _
    | _ :: _ :: _, h => rw [List.length_cons, List.length_cons] at h; omega
  · rw [if_neg hlen]
    have hperm := sortStrings_perm ss
    have hsorted := sortStrings_sorted ss
    generalize sortStrings ss = l at hperm hsorted
    match l, hperm, hsorted with
    | [], hperm, _ =>
      have := hperm.length_eq
      simp at this
      omega
    | s0 :: rest, hperm, hsorted =>
      have := uniqueLoop_spec rest s0 [s0] (List.pairwise_singleton _ _) (by simp)
        (by intro y hy; rw [List.mem_singleton] at hy; subst hy; exact le_refl _) hsorted
      refine ⟨this.1, fun x => ?_⟩
      simp only []
      rw [this.2 x, ← hperm.mem_iff]
      simp

theorem lookup_cons_eq (k k' : String) (v : Value) (d : D) :
    List.lookup k ((k', v) :: d) = if k = k' then some v else List.lookup k d := by
  by_cases h : k = k'
  · subst h; simp [List.lookup]
  · have : (k == k') = false := by simpa using h
    simp [List.lookup, this, h]

theorem lookup_setField_same (d : D) (k : String) (v : Value) :
    List.lookup k (setField d k v) = some v := by
  induction d with
  | nil => simp [setField, lookup_cons_eq]
  | cons a d ih =>
    obtain ⟨k', v'⟩ := a
    by_cases h : k' = k
    · simp [setField, h, lookup_cons_eq]
    · have h' : ¬ k = k' := fun e => h e.symm
      simp [setField, h, lookup_cons_eq, h', ih]

theorem lookup_setField_ne (d : D) (k k0 : String) (v : Value) (hne : k ≠ k0) :
    List.lookup k (setField d k0 v) = List.lookup k d := by
  induction d with
  | nil => simp [setField, lookup_cons_eq, hne]
  | cons a d ih =>
    obtain ⟨k', v'⟩ := a
    by_cases h : k' = k0
    · subst h
      simp [setField, lookup_cons_eq, hne]
    · simp only [setField, if_neg h, lookup_cons_eq, ih]

theorem applyFields_applySet (fs : D) : ∀ d : D, applyFields applySet d fs = some (setAll d fs) := by
  induction fs with
  | nil => intro d; rfl
  | cons kv fs ih => intro d; simp [applyFields, applySet, setAll, ih]

theorem lookup_setAll_of_not_mem (fs : D) : ∀ (d : D) (k : String),
    k ∉ fs.map Prod.fst → List.lookup k (setAll d fs) = List.lookup k d := by
  induction fs with
  | nil => intro d k _; rfl
  | cons kv fs ih =>
    intro d k hk
    simp only [List.map_cons, List.mem_cons, not_or] at hk
    have := ih (setField d kv.1 kv.2) k hk.2
    simp only [setAll, List.foldl_cons] at this ⊢
    rw [this, lookup_setField_ne _ _ _ _ hk.1]

theorem lookup_setAll_of_split (d : D) (l1 l2 : D) (k : String) (v : Value)
    (hk : k ∉ l2.map Prod.fst) :
    List.lookup k (setAll d (l1 ++ (k, v) :: l2)) = some v := by
  have : setAll d (l1 ++ (k, v) :: l2) = setAll (setField (setAll d l1) k v) l2 := by
    simp [setAll, List.foldl_append]
  rw [this, lookup_setAll_of_not_mem _ _ _ hk, lookup_setField_same]

theorem findSplit_some {p : D → Bool} : ∀ {c : List D} {pre post : List D} {d : D},
    findSplit p c = some (pre, d, post) →
    c = pre ++ d :: post ∧ p d = true ∧ ∀ e ∈ pre, p e = false := by
  intro c
  induction c with
  | nil => intro pre post d h; simp [findSplit] at h
  | cons a c ih =>
    intro pre post d h
    by_cases ha : p a = true
    · simp [findSplit, ha] at h
      obtain ⟨rfl, rfl, rfl⟩ := h
      simp [ha]
    · simp only [findSplit, ha] at h
      cases hr : findSplit p c with
      | none => simp [hr] at h
      | some r =>
        obtain ⟨pre', d', post'⟩ := r
        simp [hr] at h
        obtain ⟨rfl, rfl, rfl⟩ := h
        have := ih hr
        refine ⟨by rw [this.1]; rfl, this.2.1, ?_⟩
        intro e he
        rcases List.mem_cons.mp he with rfl | he
        · simpa using ha
        · exact this.2.2 e he

theorem findSplit_none {p : D → Bool} : ∀ {c : List D},
    findSplit p c = none ↔ ∀ e ∈ c, p e = false := by
  intro c
  induction c with
  | nil => simp [findSplit]
  | cons a c ih =>
    by_cases ha : p a = true
    · simp [findSplit, ha]
    · simp only [findSplit, ha, Bool.false_eq_true, if_false, Option.map_eq_none', ih]
      simp [ha]

theorem findSplit_of_first {p : D → Bool} : ∀ {pre post : List D} {d : D},
    p d = true → (∀ e ∈ pre, p e = false) →
    findSplit p (pre ++ d :: post) = some (pre, d, post) := by
  intro pre
  induction pre with
  | nil => intro post d hd _; simp [findSplit, hd]
  | cons a pre ih =>
    intro post d hd hpre
    have ha : p a = false := hpre a (List.mem_cons_self _ _)
    have := @ih post d hd (fun e he => hpre e (List.mem_cons_of_mem _ he))
    simp [findSplit, ha, this]

theorem find?_of_first {p : D → Bool} {pre post : List D} {d : D}
    (hd : p d = true) (hpre : ∀ e ∈ pre, p e = false) :
    (pre ++ d :: post).find? p = some d := by
  induction pre with
  | nil => simp [List.find?, hd]
  | cons a pre ih =>
    have ha : p a = false := hpre a (List.mem_cons_self _ _)
    simp only [List.cons_append, List.find?, ha]
    exact ih (fun e he => hpre e (List.mem_cons_of_mem _ he))

theorem find?_split {p : D → Bool} : ∀ {c : List D} {d : D}, c.find? p = some d →
    ∃ pre post, c = pre ++ d :: post ∧ p d = true ∧ ∀ e ∈ pre, p e = false := by
  intro c
  induction c with
  | nil => intro d h; simp at h
  | cons a c ih =>
    intro d h
    by_cases ha : p a = true
    · simp [List.find?, ha] at h
      subst h
      exact ⟨[], c, rfl, ha, by simp⟩
    · have ha' : p a = false := by simpa using ha
      simp only [List.find?, ha'] at h
      obtain ⟨pre, post, h1, h2, h3⟩ := ih h
      refine ⟨a :: pre, post, by rw [h1]; rfl, h2, ?_⟩
      intro e he
      rcases List.mem_cons.mp he with rfl | he
      · exact ha'
      · exact h3 e he

theorem mem_addEach (ss : List String) : ∀ (cur : List String) (x : String),
    x ∈ addEach cur ss ↔ x ∈ cur ∨ x ∈ ss := by
  induction ss with
  | nil => intro cur x; simp [addEach]
  | cons s ss ih =>
    intro cur x
    have := ih (if s ∈ cur then cur else cur ++ [s]) x
    simp only [addEach, List.foldl_cons] at this ⊢
    rw [this]
    by_cases hs : s ∈ cur
    · simp only [if_pos hs, List.mem_cons]
      constructor
      · rintro (h | h)
        · exact Or.inl h
        · exact Or.inr (Or.inr h)
      · rintro (h | h | h)
        · exact Or.inl h
        · exact Or.inl (h ▸ hs)
        · exact Or.inr h
    · simp only [if_neg hs, List.mem_append, List.mem_singleton, List.mem_cons]
      tauto

theorem addEach_nodup (ss : List String) : ∀ (cur : List String), cur.Nodup → (addEach cur ss).Nodup := by
  induction ss with
  | nil => intro cur h; simpa [addEach] using h
  | cons s ss ih =>
    intro cur h
    have := ih (if s ∈ cur then cur else cur ++ [s])
    simp only [addEach, List.foldl_cons] at this ⊢
    apply this
    by_cases hs : s ∈ cur
    · simpa [hs] using h
    · simp only [if_neg hs]
      rw [List.nodup_append]
      refine ⟨h, List.nodup_singleton _, ?_⟩
      intro a ha hb
      rw [List.mem_singleton] at hb
      exact hs (hb ▸ ha)

theorem stripLead_append (p l : List Char) : stripLead p (p ++ l) = some l := by
  induction p with
  | nil => cases l <;> rfl
  | cons a p ih => simp [stripLead, ih]

theorem stripLead_some : ∀ {p l r : List Char}, stripLead p l = some r → l = p ++ r := by
  intro p
  induction p with
  | nil => intro l r h; cases l <;> simp [stripLead] at h <;> simp [h]
  | cons a p ih =>
    intro l r h
    cases l with
    | nil => simp [stripLead] at h
    | cons b l =>
      by_cases hab : a = b
      · subst hab
        simp only [stripLead, if_true] at h
        rw [ih h]; rfl
      · simp [stripLead, hab] at h

theorem extraKey_data (k : String) : ("extrainfo." ++ k).data = "extrainfo.".data ++ k.data := by
  simp

theorem stripLead_extraKey (k : String) :
    stripLead "extrainfo.".data ("extrainfo." ++ k).data = some k.data := by
  rw [extraKey_data, stripLead_append]

theorem extraKey_inj {k k' : String} (h : "extrainfo." ++ k = "extrainfo." ++ k') : k = k' := by
  have h1 := stripLead_extraKey k
  rw [h, stripLead_extraKey] at h1
  exact String.ext (Option.some.inj h1).symm

theorem ne_extraKey {kk : String} (h : stripLead "extrainfo.".data kk.data = none) (k : String) :
    kk ≠ "extrainfo." ++ k := by
  intro e
  rw [e, stripLead_extraKey] at h
  exact Option.noConfusion h

theorem stripLead_iff (kk k : String) :
    stripLead "extrainfo.".data kk.data = some k.data ↔ kk = "extrainfo." ++ k := by
  constructor
  · intro h
    apply String.ext
    rw [extraKey_data]
    exact stripLead_some h
  · intro h; rw [h]; exact stripLead_extraKey k

theorem extraGet_nil (k : String) : extraGet [] k = none := rfl

theorem extraGet_cons_ne (kk : String) (vv : Value) (d : D) (k : String)
    (h : kk ≠ "extrainfo." ++ k) : extraGet ((kk, vv) :: d) k = extraGet d k := by
  unfold extraGet decodeExtraInfo
  rw [List.filterMap_cons]
  cases hs : stripLead "extrainfo.".data kk.data with
  | none => simp
  | some r =>
    cases vv with
    | str v =>
      have hne : ¬ k = String.mk r := by
        intro e
        apply h
        rw [← stripLead_iff, hs, e]
      have hb : (k == String.mk r) = false := by simpa using hne
      simp [List.lookup, hb]
    | _ => simp

theorem extraGet_cons_str (v : String) (d : D) (k : String) :
    extraGet (("extrainfo." ++ k, Value.str v) :: d) k = some v := by
  unfold extraGet decodeExtraInfo
  rw [List.filterMap_cons, stripLead_extraKey]
  simp [List.lookup]

theorem extraGet_of_lookup (d : D) (k v : String)
    (h : List.lookup ("extrainfo." ++ k) d = some (Value.str v)) : extraGet d k = some v := by
  induction d with
  | nil => simp at h
  | cons a d ih =>
    obtain ⟨kk, vv⟩ := a
    rw [lookup_cons_eq] at h
    by_cases hk : "extrainfo." ++ k = kk
    · rw [if_pos hk] at h
      subst hk
      cases Option.some.inj h
      exact extraGet_cons_str v d k
    · rw [if_neg hk] at h
      rw [extraGet_cons_ne _ _ _ _ (fun e => hk e.symm)]
      exact ih h

theorem extraGet_setField (d : D) (k0 : String) (v0 : Value) (k : String)
    (hne : k0 ≠ "extrainfo." ++ k) : extraGet (setField d k0 v0) k = extraGet d k := by
  induction d with
  | nil => simp only [setField]; rw [extraGet_cons_ne _ _ _ _ hne]
  | cons a d ih =>
    obtain ⟨kk, vv⟩ := a
    by_cases h : kk = k0
    · subst h
      simp only [setField, if_true]
      rw [extraGet_cons_ne _ _ _ _ hne, extraGet_cons_ne _ _ _ _ hne]
    · simp only [setField, if_neg h]
      by_cases hk : kk = "extrainfo." ++ k
      · subst hk
        cases vv with
        | str v => rw [extraGet_cons_str, extraGet_cons_str]
        | _ =>
          unfold extraGet decodeExtraInfo at ih ⊢
          rw [List.filterMap_cons, List.filterMap_cons, stripLead_extraKey]
          simpa using ih
      · rw [extraGet_cons_ne _ _ _ _ hk, extraGet_cons_ne _ _ _ _ hk, ih]

theorem extraGet_setAll (fs : D) : ∀ (d : D) (k : String),
    (∀ k0 ∈ fs.map Prod.fst, k0 ≠ "extrainfo." ++ k) →
    extraGet (setAll d fs) k = extraGet d k := by
  induction fs with
  | nil => intro d k _; rfl
  | cons kv fs ih =>
    intro d k h
    have h1 := ih (setField d kv.1 kv.2) k (fun k0 hk0 => h k0 (List.mem_cons_of_mem _ hk0))
    simp only [setAll, List.foldl_cons] at h1 ⊢
    rw [h1, extraGet_setField _ _ _ _ (h kv.1 (by simp))]

theorem applyAddToSet_each {d d' : D} {k : String} {ss : List String}
    (h : applyAddToSet d (k, Value.each ss) = some d') :
    d' = setField d k (Value.strs (addEach (decodeStrs d k) ss)) := by
  unfold applyAddToSet at h
  simp only at h
  unfold decodeStrs
  cases hl : List.lookup k d with
  | none => rw [hl] at h; simp at h; simp [h]
  | some v =>
    rw [hl] at h
    cases v <;> simp at h
    simp [h]

theorem applyAddToSet_each_ok {d : D} {k : String} {ss : List String}
    (h : List.lookup k d = none ∨ ∃ cur, List.lookup k d = some (Value.strs cur)) :
    applyAddToSet d (k, Value.each ss) =
      some (setField d k (Value.strs (addEach (decodeStrs d k) ss))) := by
  unfold applyAddToSet decodeStrs
  rcases h with h | ⟨cur, h⟩ <;> simp [h]

theorem upsertIdentity_eq (s : Collection) (query set addToSet : D) :
    upsertIdentity s query set addToSet =
      (if IsDup (Upsert s query (mkUpdate set addToSet)).1 then
        (some (WithCausef none .ErrAlreadyExists ""), (Upsert s query (mkUpdate set addToSet)).2)
      else (Mask (Upsert s query (mkUpdate set addToSet)).1 [],
        (Upsert s query (mkUpdate set addToSet)).2)) := by
  unfold upsertIdentity mkUpdate
  by_cases h1 : set.length > 0 <;> by_cases h2 : addToSet.length > 0 <;> simp [h1, h2]

theorem Upsert_err (c : Collection) (q : D) (u : List (String × D)) :
    (Upsert c q u).1 = none ∨ ((Upsert c q u).1 = some (.sentinel .mgoWriteError) ∧ (Upsert c q u).2 = c) ∨
      ((Upsert c q u).1 = some (.sentinel .mgoDup) ∧ (Upsert c q u).2 = c) := by
  unfold Upsert
  cases findSplit (matchesSel q) c with
  | none =>
    simp only
    cases applyUpdate u q with
    | none => simp
    | some d' => by_cases h : dupKey d' c = true <;> simp [h]
  | some r =>
    obtain ⟨pre, d, post⟩ := r
    simp only
    cases applyUpdate u d with
    | none => simp
    | some d' => by_cases h : dupKey d' (pre ++ post) = true <;> simp [h]

theorem UpsertUser_eq (names : Names) (s : Collection) (doc : Identity)
    (hv : names.IsValidUser doc.Username = true) (he : doc.ExternalID ≠ "") :
    UpsertUser names s doc =
      (if (upsertIdentity s (userQuery doc) (userSet doc) (userAddToSet doc)).1.map Cause =
          some (.sentinel .ErrAlreadyExists) then
        (some (WithCausef none .ErrAlreadyExists
          "cannot add user: duplicate username or external_id"),
          (upsertIdentity s (userQuery doc) (userSet doc) (userAddToSet doc)).2)
      else (Mask (upsertIdentity s (userQuery doc) (userSet doc) (userAddToSet doc)).1 [],
        (upsertIdentity s (userQuery doc) (userSet doc) (userAddToSet doc)).2)) := by
  unfold UpsertUser userSet lastLoginSet userAddToSet eachEntry userQuery
  simp only [hv, he, Bool.not_true, Bool.false_eq_true, if_false]
  by_cases h1 : doc.Groups.length > 0 <;> by_cases h2 : doc.SSHKeys.length > 0 <;>
    cases doc.LastLogin with
    | none => simp [h1, h2]
    | some t => by_cases h : t.IsZero = true <;> simp [h, h1, h2]

theorem UpsertUser_of_ok (names : Names) (s s' : Collection) (doc : Identity)
    (hv : names.IsValidUser doc.Username = true) (he : doc.ExternalID ≠ "")
    (h : Upsert s (userQuery doc) (mkUpdate (userSet doc) (userAddToSet doc)) = (none, s')) :
    UpsertUser names s doc = (none, s') := by
  rw [UpsertUser_eq names s doc hv he, upsertIdentity_eq, h]
  simp [IsDup, Mask]

theorem UpsertUser_of_dup (names : Names) (s s' : Collection) (doc : Identity)
    (hv : names.IsValidUser doc.Username = true) (he : doc.ExternalID ≠ "")
    (h : Upsert s (userQuery doc) (mkUpdate (userSet doc) (userAddToSet doc)) =
      (some (.sentinel .mgoDup), s')) :
    UpsertUser names s doc = (some (WithCausef none .ErrAlreadyExists
          "cannot add user: duplicate username or external_id"), s') := by
  rw [UpsertUser_eq names s doc hv he, upsertIdentity_eq, h]
  simp [IsDup, Cause, WithCausef]

theorem UpsertUser_ok_inv (names : Names) (s s' : Collection) (doc : Identity)
    (h : UpsertUser names s doc = (none, s')) :
    names.IsValidUser doc.Username = true ∧ doc.ExternalID ≠ "" ∧
      Upsert s (userQuery doc) (mkUpdate (userSet doc) (userAddToSet doc)) = (none, s') := by
  by_cases hv : names.IsValidUser doc.Username = true
  · by_cases he : doc.ExternalID = ""
    · simp [UpsertUser, hv, he] at h
    · refine ⟨hv, he, ?_⟩
      rw [UpsertUser_eq names s doc hv he, upsertIdentity_eq] at h
      rcases Upsert_err s (userQuery doc) (mkUpdate (userSet doc) (userAddToSet doc)) with
        h1 | ⟨h1, _⟩ | ⟨h1, _⟩
      · rw [h1] at h
        simp [IsDup, Mask] at h
        exact Prod.ext h1 h
      · rw [h1] at h
        simp [IsDup, Mask, Cause, Error.msg] at h
      · rw [h1] at h
        simp [IsDup, Mask, Cause, WithCausef] at h
  · simp [UpsertUser, hv] at h

theorem applyFields_append (f : D → String × Value → Option D) (l1 l2 : D) : ∀ d : D,
    applyFields f d (l1 ++ l2) = (applyFields f d l1).bind (fun x => applyFields f x l2) := by
  induction l1 with
  | nil => intro d; rfl
  | cons kv l1 ih =>
    intro d
    simp only [List.cons_append, applyFields]
    cases f d kv with
    | none => rfl
    | some d' => exact ih d'

theorem applyUpdate_mkUpdate (set addToSet : D) (hset : set ≠ []) (d : D) :
    applyUpdate (mkUpdate set addToSet) d = applyFields applyAddToSet (setAll d set) addToSet := by
  have h1 : set.length > 0 := List.length_pos.mpr hset
  unfold mkUpdate
  rw [if_pos h1]
  by_cases h2 : addToSet.length > 0
  · rw [if_pos h2]
    simp [applyUpdate, applyOp, applyFields_applySet]
  · rw [if_neg h2]
    have : addToSet = [] := by
      cases addToSet with
      | nil => rfl
      | cons a l => simp at h2
    subst this
    simp [applyUpdate, applyOp, applyFields_applySet, applyFields]

theorem applyFields_eachEntry_some {d d' : D} {k : String} {ss : List String}
    (h : applyFields applyAddToSet d (eachEntry k ss) = some d') : d' = addArr d k ss := by
  unfold eachEntry at h
  unfold addArr
  by_cases hs : ss.length > 0
  · rw [if_pos hs] at h
    rw [if_pos hs]
    simp only [applyFields] at h
    cases ha : applyAddToSet d (k, Value.each ss) with
    | none => rw [ha] at h; simp at h
    | some x =>
      rw [ha] at h
      simp at h
      rw [← h]
      exact applyAddToSet_each ha
  · rw [if_neg hs] at h
    rw [if_neg hs]
    simp [applyFields] at h
    exact h.symm

theorem applyFields_eachEntry_ok {d : D} {k : String} {ss : List String}
    (h : List.lookup k d = none ∨ ∃ cur, List.lookup k d = some (Value.strs cur)) :
    applyFields applyAddToSet d (eachEntry k ss) = some (addArr d k ss) := by
  unfold eachEntry addArr
  by_cases hs : ss.length > 0
  · rw [if_pos hs, if_pos hs]
    simp [applyFields, applyAddToSet_each_ok h]
  · rw [if_neg hs, if_neg hs]
    rfl

theorem lookup_addArr_ne (d : D) (k k0 : String) (ss : List String) (hne : k ≠ k0) :
    List.lookup k (addArr d k0 ss) = List.lookup k d := by
  unfold addArr
  by_cases hs : ss.length > 0
  · rw [if_pos hs, lookup_setField_ne _ _ _ _ hne]
  · rw [if_neg hs]

theorem mem_decodeStrs_addArr (d : D) (k : String) (ss : List String) (x : String) :
    x ∈ decodeStrs (addArr d k ss) k ↔ x ∈ decodeStrs d k ∨ x ∈ ss := by
  unfold addArr
  by_cases hs : ss.length > 0
  · rw [if_pos hs]
    have : decodeStrs (setField d k (Value.strs (addEach (decodeStrs d k) ss))) k =
        addEach (decodeStrs d k) ss := by
      unfold decodeStrs
      rw [lookup_setField_same]
    rw [this, mem_addEach]
  · rw [if_neg hs]
    have : ss = [] := by
      cases ss with
      | nil => rfl
      | cons a l => simp at hs
    subst this
    simp

theorem extraGet_addArr (d : D) (k0 : String) (ss : List String) (k : String)
    (hne : k0 ≠ "extrainfo." ++ k) : extraGet (addArr d k0 ss) k = extraGet d k := by
  unfold addArr
  by_cases hs : ss.length > 0
  · rw [if_pos hs, extraGet_setField _ _ _ _ hne]
  · rw [if_neg hs]

theorem userSet_ne_nil (doc : Identity) : userSet doc ≠ [] := by
  simp [userSet]

theorem applyUser_some {doc : Identity} {d d' : D}
    (h : applyUpdate (mkUpdate (userSet doc) (userAddToSet doc)) d = some d') :
    d' = userDoc doc d := by
  rw [applyUpdate_mkUpdate _ _ (userSet_ne_nil doc)] at h
  unfold userAddToSet at h
  rw [applyFields_append] at h
  cases h1 : applyFields applyAddToSet (setAll d (userSet doc)) (eachEntry "groups" doc.Groups) with
  | none => rw [h1] at h; simp at h
  | some x =>
    rw [h1] at h
    simp only [Option.some_bind] at h
    have e1 := applyFields_eachEntry_some h1
    have e2 := applyFields_eachEntry_some h
    rw [e2, e1]
    rfl

theorem not_mem_userSet_keys (doc : Identity) (kk : String)
    (h1 : kk ≠ "email" ∧ kk ≠ "gravatarid" ∧ kk ≠ "fullname" ∧ kk ≠ "lastlogin")
    (h2 : stripLead "extrainfo.".data kk.data = none) :
    kk ∉ (userSet doc).map Prod.fst := by
  unfold userSet lastLoginSet
  simp only [List.map_append, List.map_cons, List.map_nil, List.mem_append, List.mem_cons,
    List.mem_map, not_or]
  refine ⟨?_, ?_, ?_⟩
  · simp [h1.1, h1.2.1, h1.2.2.1]
  · cases doc.LastLogin with
    | none => simp
    | some t => by_cases ht : t.IsZero = true <;> simp [ht, h1.2.2.2, Ne.symm h1.2.2.2]
  · rintro ⟨a, ⟨b, _, hb⟩, ha⟩
    rw [← hb] at ha
    exact ne_extraKey h2 _ ha.symm

theorem lookup_userDoc_other (doc : Identity) (d : D) (kk : String)
    (h1 : kk ≠ "email" ∧ kk ≠ "gravatarid" ∧ kk ≠ "fullname" ∧ kk ≠ "lastlogin")
    (h2 : stripLead "extrainfo.".data kk.data = none)
    (h3 : kk ≠ "groups" ∧ kk ≠ "ssh_keys") :
    List.lookup kk (userDoc doc d) = List.lookup kk d := by
  unfold userDoc
  rw [lookup_addArr_ne _ _ _ _ h3.2, lookup_addArr_ne _ _ _ _ h3.1,
    lookup_setAll_of_not_mem _ _ _ (not_mem_userSet_keys doc kk h1 h2)]

theorem lookup_userDoc_username (doc : Identity) (d : D) :
    List.lookup "username" (userDoc doc d) = List.lookup "username" d :=
  lookup_userDoc_other doc d _ (by decide) (by decide) (by decide)

theorem lookup_userDoc_external_id (doc : Identity) (d : D) :
    List.lookup "external_id" (userDoc doc d) = List.lookup "external_id" d :=
  lookup_userDoc_other doc d _ (by decide) (by decide) (by decide)

theorem dupKey_false_iff (d : D) (others : List D) :
    dupKey d others = false ↔
      ∀ e ∈ others, List.lookup "username" e ≠ List.lookup "username" d ∧
        (List.lookup "external_id" d = none ∨
          List.lookup "external_id" e ≠ List.lookup "external_id" d) := by
  unfold dupKey identityIndexes indexViolated
  simp only [List.any_cons, List.any_nil, Bool.or_false, Bool.true_and, Bool.false_and,
    Bool.not_false, Bool.or_eq_false_iff, Bool.and_eq_false_iff, List.any_eq_false,
    beq_iff_eq, Bool.not_eq_false', Option.isNone_iff_eq_none]
  constructor
  · rintro ⟨h1, h2⟩ e he
    refine ⟨h1 e he, ?_⟩
    rcases h2 with h2 | h2
    · exact Or.inl h2
    · exact Or.inr (h2 e he)
  · intro h
    refine ⟨fun e he => (h e he).1, ?_⟩
    by_cases hn : List.lookup "external_id" d = none
    · exact Or.inl hn
    · refine Or.inr (fun e he => ?_)
      rcases (h e he).2 with h2 | h2
      · exact absurd h2 hn
      · exact h2

theorem dupKey_true_of_username {d e : D} {others : List D} (he : e ∈ others)
    (h : List.lookup "username" e = List.lookup "username" d) : dupKey d others = true := by
  by_contra hc
  have hc' : dupKey d others = false := by simpa using hc
  exact ((dupKey_false_iff d others).mp hc' e he).1 h

theorem dupKey_true_of_external_id {d e : D} {others : List D} (he : e ∈ others)
    (hd : List.lookup "external_id" d ≠ none)
    (h : List.lookup "external_id" e = List.lookup "external_id" d) : dupKey d others = true := by
  by_contra hc
  have hc' : dupKey d others = false := by simpa using hc
  rcases ((dupKey_false_iff d others).mp hc' e he).2 with h2 | h2
  · exact hd h2
  · exact h2 h

theorem matchesSel_username (u : String) (d : D) :
    matchesSel [("username", Value.str u)] d = true ↔
      List.lookup "username" d = some (Value.str u) := by
  simp [matchesSel]

theorem matchesSel_username_false (u : String) (d : D) :
    matchesSel [("username", Value.str u)] d = false ↔
      List.lookup "username" d ≠ some (Value.str u) := by
  simp [matchesSel]

theorem matchesSel_userQuery (doc : Identity) (d : D) :
    matchesSel (userQuery doc) d = true ↔
      List.lookup "username" d = some (Value.str doc.Username) ∧
        List.lookup "external_id" d = some (Value.str doc.ExternalID) := by
  simp [matchesSel, userQuery]

theorem GetIdentity_ok_iff (s : Collection) (u : String) (i : Identity) :
    GetIdentity s u = .ok i ↔
      ∃ d, s.find? (matchesSel [("username", Value.str u)]) = some d ∧ i = decodeIdentity d := by
  unfold GetIdentity FindOne
  cases h : List.find? (matchesSel [("username", Value.str u)]) s with
  | none =>
    simp only [Cause]
    simp
  | some d =>
    simp only
    constructor
    · intro e
      exact ⟨d, rfl, (Except.ok.inj e).symm⟩
    · rintro ⟨d', hd', rfl⟩
      cases Option.some.inj hd'
      rfl

theorem decodeStr_of_lookup {d : D} {k x : String} (h : List.lookup k d = some (Value.str x)) :
    decodeStr d k = x := by
  unfold decodeStr; rw [h]

theorem lookup_of_decodeStr {d : D} {k x : String} (h : decodeStr d k = x) (hx : x ≠ "") :
    List.lookup k d = some (Value.str x) := by
  unfold decodeStr at h
  cases hl : List.lookup k d with
  | none => rw [hl] at h; exact absurd h.symm hx
  | some v =>
    rw [hl] at h
    cases v with
    | str s => simp at h; rw [h]
    | _ => exact absurd h.symm hx

theorem Upsert_insert {c : Collection} {q : D} {u : List (String × D)} {d' : D}
    (h1 : findSplit (matchesSel q) c = none) (h2 : applyUpdate u q = some d')
    (h3 : dupKey d' c = false) : Upsert c q u = (none, c ++ [d']) := by
  unfold Upsert
  rw [h1]
  simp only [h2, h3]
  rfl

theorem Upsert_insert_dup {c : Collection} {q : D} {u : List (String × D)} {d' : D}
    (h1 : findSplit (matchesSel q) c = none) (h2 : applyUpdate u q = some d')
    (h3 : dupKey d' c = true) : Upsert c q u = (some (.sentinel .mgoDup), c) := by
  unfold Upsert
  rw [h1]
  simp only [h2, h3]
  rfl

theorem Upsert_match {c pre post : Collection} {q d : D} {u : List (String × D)} {d' : D}
    (h1 : findSplit (matchesSel q) c = some (pre, d, post)) (h2 : applyUpdate u d = some d')
    (h3 : dupKey d' (pre ++ post) = false) : Upsert c q u = (none, pre ++ d' :: post) := by
  unfold Upsert
  rw [h1]
  simp only [h2, h3]
  rfl

theorem Upsert_match_ok_inv {c pre post s' : Collection} {q d : D} {u : List (String × D)}
    (h1 : findSplit (matchesSel q) c = some (pre, d, post))
    (h : Upsert c q u = (none, s')) :
    ∃ d', applyUpdate u d = some d' ∧ dupKey d' (pre ++ post) = false ∧ s' = pre ++ d' :: post := by
  unfold Upsert at h
  rw [h1] at h
  simp only at h
  cases h2 : applyUpdate u d with
  | none => rw [h2] at h; simp at h
  | some d' =>
    rw [h2] at h
    simp only at h
    by_cases h3 : dupKey d' (pre ++ post) = true
    · rw [if_pos h3] at h; simp at h
    · rw [if_neg h3] at h
      refine ⟨d', rfl, by simpa using h3, ?_⟩
      exact (congrArg Prod.snd h).symm

theorem decodeStrs_congr {d1 d2 : D} {k : String} (h : List.lookup k d1 = List.lookup k d2) :
    decodeStrs d1 k = decodeStrs d2 k := by
  unfold decodeStrs; rw [h]

theorem decodeStrs_addArr (d : D) (k : String) (ss : List String) :
    decodeStrs (addArr d k ss) k = addEach (decodeStrs d k) ss := by
  unfold addArr
  by_cases hs : ss.length > 0
  · rw [if_pos hs]
    unfold decodeStrs
    rw [lookup_setField_same]
  · rw [if_neg hs]
    have : ss = [] := by
      cases ss with
      | nil => rfl
      | cons a l => simp at hs
    subst this
    rfl

theorem addEach_of_nodup (ss : List String) : ∀ cur : List String, (cur ++ ss).Nodup →
    addEach cur ss = cur ++ ss := by
  induction ss with
  | nil => intro cur _; simp [addEach]
  | cons s ss ih =>
    intro cur h
    have hs : s ∉ cur := by
      intro hm
      rw [List.nodup_append] at h
      exact h.2.2 hm (List.mem_cons_self _ _)
    have h' : ((cur ++ [s]) ++ ss).Nodup := by simpa using h
    have := ih (cur ++ [s]) h'
    simp only [addEach, List.foldl_cons, if_neg hs] at this ⊢
    rw [this]
    simp

theorem groups_userDoc (doc : Identity) (d : D) :
    decodeStrs (userDoc doc d) "groups" = addEach (decodeStrs d "groups") doc.Groups := by
  unfold userDoc
  rw [decodeStrs_congr (lookup_addArr_ne _ "groups" "ssh_keys" _ (by decide)), decodeStrs_addArr,
    decodeStrs_congr (lookup_setAll_of_not_mem _ d "groups"
      (not_mem_userSet_keys doc _ (by decide) (by decide)))]

theorem ssh_keys_userDoc (doc : Identity) (d : D) :
    decodeStrs (userDoc doc d) "ssh_keys" = addEach (decodeStrs d "ssh_keys") doc.SSHKeys := by
  unfold userDoc
  rw [decodeStrs_addArr, decodeStrs_congr (lookup_addArr_ne _ "ssh_keys" "groups" _ (by decide)),
    decodeStrs_congr (lookup_setAll_of_not_mem _ d "ssh_keys"
      (not_mem_userSet_keys doc _ (by decide) (by decide)))]

theorem not_mem_tail_keys (ll : Option Time) (extra : List (String × String)) (kk : String)
    (h1 : kk ≠ "lastlogin") (h2 : stripLead "extrainfo.".data kk.data = none) :
    kk ∉ (lastLoginSet ll ++
      extra.map (fun kv => ("extrainfo." ++ kv.1, Value.str kv.2))).map Prod.fst := by
  unfold lastLoginSet
  simp only [List.map_append, List.mem_append, List.mem_map, not_or]
  refine ⟨?_, ?_⟩
  · cases ll with
    | none => simp
    | some t => by_cases ht : t.IsZero = true <;> simp [ht, Ne.symm h1]
  · rintro ⟨a, ⟨b, _, hb⟩, ha⟩
    rw [← hb] at ha
    exact ne_extraKey h2 _ ha.symm

theorem lookup_userDoc_set (doc : Identity) (d : D) (k : String) (v : Value)
    (h3 : k ≠ "groups" ∧ k ≠ "ssh_keys") (l1 l2 : D)
    (hsplit : userSet doc = l1 ++ (k, v) :: l2) (hk : k ∉ l2.map Prod.fst) :
    List.lookup k (userDoc doc d) = some v := by
  unfold userDoc
  rw [lookup_addArr_ne _ _ _ _ h3.2, lookup_addArr_ne _ _ _ _ h3.1, hsplit,
    lookup_setAll_of_split _ _ _ _ _ hk]

theorem email_userDoc (doc : Identity) (d : D) :
    List.lookup "email" (userDoc doc d) = some (Value.str doc.Email) := by
  have := not_mem_tail_keys doc.LastLogin doc.ExtraInfo "email" (by decide) (by decide)
  apply lookup_userDoc_set doc d _ _ (by decide) []
    (("gravatarid", Value.str doc.GravatarID) :: ("fullname", Value.str doc.FullName) ::
      (lastLoginSet doc.LastLogin ++
        doc.ExtraInfo.map (fun kv => ("extrainfo." ++ kv.1, Value.str kv.2)))) rfl
  simp only [List.map_cons, List.mem_cons, not_or]
  exact ⟨by decide, by decide, this⟩

theorem gravatarid_userDoc (doc : Identity) (d : D) :
    List.lookup "gravatarid" (userDoc doc d) = some (Value.str doc.GravatarID) := by
  have := not_mem_tail_keys doc.LastLogin doc.ExtraInfo "gravatarid" (by decide) (by decide)
  apply lookup_userDoc_set doc d _ _ (by decide) [("email", Value.str doc.Email)]
    (("fullname", Value.str doc.FullName) ::
      (lastLoginSet doc.LastLogin ++
        doc.ExtraInfo.map (fun kv => ("extrainfo." ++ kv.1, Value.str kv.2)))) rfl
  simp only [List.map_cons, List.mem_cons, not_or]
  exact ⟨by decide, this⟩

theorem fullname_userDoc (doc : Identity) (d : D) :
    List.lookup "fullname" (userDoc doc d) = some (Value.str doc.FullName) := by
  apply lookup_userDoc_set doc d _ _ (by decide)
    [("email", Value.str doc.Email), ("gravatarid", Value.str doc.GravatarID)]
    (lastLoginSet doc.LastLogin ++
        doc.ExtraInfo.map (fun kv => ("extrainfo." ++ kv.1, Value.str kv.2))) rfl
  exact not_mem_tail_keys doc.LastLogin doc.ExtraInfo "fullname" (by decide) (by decide)

theorem not_mem_extra_keys (extra : List (String × String)) (kk : String)
    (h2 : stripLead "extrainfo.".data kk.data = none) :
    kk ∉ (extra.map (fun kv => ("extrainfo." ++ kv.1, Value.str kv.2))).map Prod.fst := by
  simp only [List.mem_map, not_exists, not_and]
  rintro a ⟨b, _, hb⟩ ha
  rw [← hb] at ha
  exact ne_extraKey h2 _ ha.symm

theorem lastlogin_userDoc_set (doc : Identity) (d : D) (t : Time)
    (h : doc.LastLogin = some t) (hz : t.IsZero = false) :
    List.lookup "lastlogin" (userDoc doc d) = some (Value.time t) := by
  apply lookup_userDoc_set doc d _ _ (by decide)
    [("email", Value.str doc.Email), ("gravatarid", Value.str doc.GravatarID),
      ("fullname", Value.str doc.FullName)]
    (doc.ExtraInfo.map (fun kv => ("extrainfo." ++ kv.1, Value.str kv.2)))
  · simp [userSet, lastLoginSet, h, hz]
  · exact not_mem_extra_keys _ _ (by decide)

theorem lastlogin_userDoc_keep (doc : Identity) (d : D)
    (h : doc.LastLogin = none ∨ ∃ t, doc.LastLogin = some t ∧ t.IsZero = true) :
    List.lookup "lastlogin" (userDoc doc d) = List.lookup "lastlogin" d := by
  unfold userDoc
  rw [lookup_addArr_ne _ _ _ _ (by decide), lookup_addArr_ne _ _ _ _ (by decide)]
  apply lookup_setAll_of_not_mem
  have hl : lastLoginSet doc.LastLogin = [] := by
    rcases h with h | ⟨t, h, hz⟩ <;> simp [lastLoginSet, h, *]
  unfold userSet
  rw [hl]
  simp only [List.nil_append, List.map_append, List.mem_append, not_or]
  exact ⟨by simp, not_mem_extra_keys _ _ (by decide)⟩

theorem extraGet_userDoc_new (doc : Identity) (d : D) (k v : String)
    (hmem : (k, v) ∈ doc.ExtraInfo) (hnodup : (doc.ExtraInfo.map Prod.fst).Nodup) :
    extraGet (userDoc doc d) k = some v := by
  apply extraGet_of_lookup
  obtain ⟨e1, e2, he⟩ := List.append_of_mem hmem
  apply lookup_userDoc_set doc d _ _
    ⟨fun e => @ne_extraKey "groups" (by decide) k e.symm,
      fun e => @ne_extraKey "ssh_keys" (by decide) k e.symm⟩
    ([("email", Value.str doc.Email), ("gravatarid", Value.str doc.GravatarID),
      ("fullname", Value.str doc.FullName)] ++ (lastLoginSet doc.LastLogin ++
        e1.map (fun kv => ("extrainfo." ++ kv.1, Value.str kv.2))))
    (e2.map (fun kv => ("extrainfo." ++ kv.1, Value.str kv.2)))
  · unfold userSet
    rw [he]
    simp
  · rw [he] at hnodup
    simp only [List.map_append, List.map_cons, List.nodup_append, List.nodup_cons] at hnodup
    simp only [List.mem_map, not_exists, not_and]
    rintro a ⟨b, hb1, hb2⟩ ha
    rw [← hb2] at ha
    have := extraKey_inj ha
    exact hnodup.2.1.1 (this ▸ List.mem_map_of_mem Prod.fst hb1)

theorem extraGet_userDoc_old (doc : Identity) (d : D) (k : String)
    (hk : k ∉ doc.ExtraInfo.map Prod.fst) :
    extraGet (userDoc doc d) k = extraGet d k := by
  unfold userDoc
  rw [extraGet_addArr _ _ _ _ (@ne_extraKey "ssh_keys" (by decide) k),
    extraGet_addArr _ _ _ _ (@ne_extraKey "groups" (by decide) k)]
  apply extraGet_setAll
  intro k0 hk0
  unfold userSet lastLoginSet at hk0
  simp only [List.map_append, List.map_cons, List.map_nil, List.mem_append, List.mem_cons,
    List.mem_map] at hk0
  rcases hk0 with hk0 | hk0 | hk0
  · rcases hk0 with rfl | rfl | rfl | hk0
    · exact ne_extraKey (by decide) k
    · exact ne_extraKey (by decide) k
    · exact ne_extraKey (by decide) k
    · simp at hk0
  · cases hl : doc.LastLogin with
    | none => rw [hl] at hk0; simp at hk0
    | some t =>
      rw [hl] at hk0
      by_cases ht : t.IsZero = true
      · simp [ht] at hk0
      · simp [ht] at hk0
        rw [← hk0]
        exact ne_extraKey (by decide) k
  · obtain ⟨a, ⟨b, hb1, hb2⟩, ha⟩ := hk0
    rw [← ha, ← hb2]
    intro e
    have := extraKey_inj e
    exact hk (this ▸ List.mem_map_of_mem Prod.fst hb1)

theorem applyUser_ok (doc : Identity) (d : D)
    (hg : List.lookup "groups" d = none ∨ ∃ cur, List.lookup "groups" d = some (Value.strs cur))
    (hk : List.lookup "ssh_keys" d = none ∨
      ∃ cur, List.lookup "ssh_keys" d = some (Value.strs cur)) :
    applyUpdate (mkUpdate (userSet doc) (userAddToSet doc)) d = some (userDoc doc d) := by
  rw [applyUpdate_mkUpdate _ _ (userSet_ne_nil doc)]
  unfold userAddToSet
  rw [applyFields_append, applyFields_eachEntry_ok, Option.some_bind, applyFields_eachEntry_ok]
  · rfl
  · rw [lookup_addArr_ne _ _ _ _ (by decide), lookup_setAll_of_not_mem _ d "ssh_keys"
      (not_mem_userSet_keys doc _ (by decide) (by decide))]
    exact hk
  · rw [lookup_setAll_of_not_mem _ d "groups"
      (not_mem_userSet_keys doc _ (by decide) (by decide))]
    exact hg

theorem user_merge {names : Names} {s s' : Collection} {doc : Identity} {d : D}
    (hfind : s.find? (matchesSel [("username", Value.str doc.Username)]) = some d)
    (hext : List.lookup "external_id" d = some (Value.str doc.ExternalID))
    (h : UpsertUser names s doc = (none, s')) :
    s'.find? (matchesSel [("username", Value.str doc.Username)]) = some (userDoc doc d) := by
  obtain ⟨pre, post, hs, hd, hpre⟩ := find?_split hfind
  have hu := (matchesSel_username _ _).mp hd
  have hsplit : findSplit (matchesSel (userQuery doc)) s = some (pre, d, post) := by
    rw [hs]
    apply findSplit_of_first
    · exact (matchesSel_userQuery doc d).mpr ⟨hu, hext⟩
    · intro e he
      have h1 := (matchesSel_username_false _ _).mp (hpre e he)
      cases hm : matchesSel (userQuery doc) e with
      | false => rfl
      | true => exact absurd ((matchesSel_userQuery doc e).mp hm).1 h1
  obtain ⟨_, _, hup⟩ := UpsertUser_ok_inv names s s' doc h
  obtain ⟨d', hd', _, hs'⟩ := Upsert_match_ok_inv hsplit hup
  rw [applyUser_some hd'] at hs'
  rw [hs']
  apply find?_of_first _ hpre
  rw [matchesSel_username, lookup_userDoc_username]
  exact hu

theorem GetIdentity_ok_find {s : Collection} {u : String} {i : Identity}
    (h : GetIdentity s u = .ok i) :
    ∃ d, s.find? (matchesSel [("username", Value.str u)]) = some d ∧ i = decodeIdentity d :=
  (GetIdentity_ok_iff s u i).mp h

theorem GetIdentity_of_find {s : Collection} {u : String} {d : D}
    (h : s.find? (matchesSel [("username", Value.str u)]) = some d) :
    GetIdentity s u = .ok (decodeIdentity d) :=
  (GetIdentity_ok_iff s u _).mpr ⟨d, h, rfl⟩

theorem user_merge_get {names : Names} {s s' : Collection} {doc old : Identity}
    (hold : GetIdentity s doc.Username = .ok old) (hext : old.ExternalID = doc.ExternalID)
    (h : UpsertUser names s doc = (none, s')) :
    ∃ d, old = decodeIdentity d ∧
      GetIdentity s' doc.Username = .ok (decodeIdentity (userDoc doc d)) := by
  obtain ⟨d, hfind, hd⟩ := GetIdentity_ok_find hold
  have he : doc.ExternalID ≠ "" := (UpsertUser_ok_inv names s s' doc h).2.1
  have hl : List.lookup "external_id" d = some (Value.str doc.ExternalID) := by
    apply lookup_of_decodeStr _ he
    rw [← hext, hd]
    rfl
  exact ⟨d, hd, GetIdentity_of_find (user_merge hfind hl h)⟩

theorem lookup_mem {β : Type} (l : List (String × β)) (k : String) (v : β)
    (h : List.lookup k l = some v) : (k, v) ∈ l := by
  induction l with
  | nil => simp at h
  | cons a l ih =>
    obtain ⟨k', v'⟩ := a
    by_cases hk : k = k'
    · subst hk
      simp [List.lookup] at h
      simp [h]
    · have hb : (k == k') = false := by simpa using hk
      simp only [List.lookup, hb] at h
      exact List.mem_cons_of_mem _ (ih h)

theorem lookup_none_not_mem {β : Type} (l : List (String × β)) (k : String)
    (h : List.lookup k l = none) : k ∉ l.map Prod.fst := by
  induction l with
  | nil => simp
  | cons a l ih =>
    obtain ⟨k', v'⟩ := a
    by_cases hk : k = k'
    · subst hk
      simp [List.lookup] at h
    · have hb : (k == k') = false := by simpa using hk
      simp only [List.lookup, hb] at h
      simp only [List.map_cons, List.mem_cons, not_or]
      exact ⟨hk, ih h⟩

theorem clash_symm {a b : D} (h : dupKey a [b] = false) : dupKey b [a] = false := by
  rw [dupKey_false_iff] at h ⊢
  intro e he
  rw [List.mem_singleton] at he
  subst he
  have := h b (List.mem_singleton_self b)
  refine ⟨fun e' => this.1 e'.symm, ?_⟩
  rcases this.2 with h2 | h2
  · by_cases hb : List.lookup "external_id" b = none
    · exact Or.inl hb
    · exact Or.inr (fun e' => hb (e'.symm ▸ h2))
  · exact Or.inr (fun e' => h2 e'.symm)

theorem wf_clash_free {s : Collection} (hwf : wf s) {a b : D} (ha : a ∈ s) (hb : b ∈ s)
    (hne : a ≠ b) : dupKey a [b] = false :=
  List.Pairwise.forall (fun _ _ h => clash_symm h) hwf ha hb hne

theorem dupKey_congr {d d' : D} (others : List D)
    (h1 : List.lookup "username" d' = List.lookup "username" d)
    (h2 : List.lookup "external_id" d' = List.lookup "external_id" d) :
    dupKey d' others = dupKey d others := by
  have : dupKey d' others = false ↔ dupKey d others = false := by
    rw [dupKey_false_iff, dupKey_false_iff, h1, h2]
  cases h : dupKey d others with
  | false => exact this.mpr h
  | true =>
    cases h' : dupKey d' others with
    | false => rw [this.mp h'] at h; exact h
    | true => rfl

theorem wf_split {pre post : Collection} {d : D} (hwf : wf (pre ++ d :: post)) :
    dupKey d (pre ++ post) = false := by
  unfold wf at hwf
  rw [List.pairwise_append] at hwf
  obtain ⟨_, h2, h3⟩ := hwf
  rw [List.pairwise_cons] at h2
  rw [dupKey_false_iff]
  intro e he
  have hc : dupKey d [e] = false := by
    rcases List.mem_append.mp he with he | he
    · exact clash_symm (h3 e he d (List.mem_cons_self _ _))
    · exact h2.1 e he
  exact (dupKey_false_iff d [e]).mp hc e (List.mem_singleton_self e)

theorem lookup_userQuery_other (doc : Identity) (k : String)
    (h : k ≠ "username" ∧ k ≠ "external_id") : List.lookup k (userQuery doc) = none := by
  simp [userQuery, lookup_cons_eq, h.1, h.2]

theorem upsertUser_fresh (names : Names) (s : Collection) (doc : Identity)
    (hv : names.IsValidUser doc.Username = true) (he : doc.ExternalID ≠ "")
    (hfresh : ∀ e ∈ s, List.lookup "username" e ≠ some (Value.str doc.Username) ∧
      List.lookup "external_id" e ≠ some (Value.str doc.ExternalID)) :
    UpsertUser names s doc = (none, s ++ [userDoc doc (userQuery doc)]) ∧
      GetIdentity (s ++ [userDoc doc (userQuery doc)]) doc.Username =
        .ok (decodeIdentity (userDoc doc (userQuery doc))) := by
  have hu : List.lookup "username" (userDoc doc (userQuery doc)) =
      some (Value.str doc.Username) := by
    rw [lookup_userDoc_username]; simp [userQuery, lookup_cons_eq]
  have hx : List.lookup "external_id" (userDoc doc (userQuery doc)) =
      some (Value.str doc.ExternalID) := by
    rw [lookup_userDoc_external_id]; simp [userQuery, lookup_cons_eq]
  constructor
  · apply UpsertUser_of_ok names s _ doc hv he
    apply Upsert_insert
    · rw [findSplit_none]
      intro e hmem
      cases hm : matchesSel (userQuery doc) e with
      | false => rfl
      | true => exact absurd ((matchesSel_userQuery doc e).mp hm).1 (hfresh e hmem).1
    · exact applyUser_ok doc _ (Or.inl (lookup_userQuery_other doc _ (by decide)))
        (Or.inl (lookup_userQuery_other doc _ (by decide)))
    · rw [dupKey_false_iff]
      intro e hmem
      rw [hu, hx]
      exact ⟨(hfresh e hmem).1, Or.inr (hfresh e hmem).2⟩
  · apply GetIdentity_of_find
    apply find?_of_first
    · rw [matchesSel_username]; exact hu
    · intro e hmem
      rw [matchesSel_username_false]
      exact (hfresh e hmem).1

theorem decodeStrs_userQuery (doc : Identity) (k : String)
    (h : k ≠ "username" ∧ k ≠ "external_id") : decodeStrs (userQuery doc) k = [] := by
  unfold decodeStrs
  rw [lookup_userQuery_other doc k h]

theorem decodeTime_filter (doc : Identity) (d : D) (hd : List.lookup "lastlogin" d = none) :
    decodeTime (userDoc doc d) "lastlogin" = doc.LastLogin.filter (fun t => !t.IsZero) := by
  unfold decodeTime
  cases hl : doc.LastLogin with
  | none =>
    rw [lastlogin_userDoc_keep doc d (Or.inl hl), hd]
    rfl
  | some t =>
    cases hz : t.IsZero with
    | true =>
      rw [lastlogin_userDoc_keep doc d (Or.inr ⟨t, hl, hz⟩), hd]
      simp [Option.filter, hz]
    | false =>
      rw [lastlogin_userDoc_set doc d t hl hz]
      simp [Option.filter, hz]

/-- C2 (amended): for a document with a valid username and a non-empty external id, when
no stored identity has that username or that external id, `UpsertUser` succeeds and a
following `GetIdentity` returns the supplied username, external id, email, full name and
gravatar id; the last-login is the supplied one when that is set and not the zero time, and
absent otherwise; the groups and the SSH keys hold exactly the supplied elements, each
once, and are the supplied lists when these have no repeated element. -/
theorem UpsertUser_fresh_then_GetIdentity (names : Names) (s : Collection) (doc : Identity)
    (hv : names.IsValidUser doc.Username = true) (he : doc.ExternalID ≠ "")
    (hfresh : ∀ e ∈ s, List.lookup "username" e ≠ some (Value.str doc.Username) ∧
      List.lookup "external_id" e ≠ some (Value.str doc.ExternalID)) :
    ∃ s' r, UpsertUser names s doc = (none, s') ∧ GetIdentity s' doc.Username = .ok r ∧
      r.Username = doc.Username ∧ r.ExternalID = doc.ExternalID ∧ r.Email = doc.Email ∧
      r.FullName = doc.FullName ∧ r.GravatarID = doc.GravatarID ∧
      r.LastLogin = doc.LastLogin.filter (fun t => !t.IsZero) ∧
      r.Groups.Nodup ∧ (∀ g, g ∈ r.Groups ↔ g ∈ doc.Groups) ∧
      (doc.Groups.Nodup → r.Groups = doc.Groups) ∧
      r.SSHKeys.Nodup ∧ (∀ k, k ∈ r.SSHKeys ↔ k ∈ doc.SSHKeys) ∧
      (doc.SSHKeys.Nodup → r.SSHKeys = doc.SSHKeys) := by
  obtain ⟨h1, h2⟩ := upsertUser_fresh names s doc hv he hfresh
  refine ⟨_, _, h1, h2, ?_, ?_, ?_, ?_, ?_, ?_, ?_, ?_, ?_, ?_, ?_, ?_⟩
  · apply decodeStr_of_lookup
    rw [lookup_userDoc_username]; simp [userQuery, lookup_cons_eq]
  · apply decodeStr_of_lookup
    rw [lookup_userDoc_external_id]; simp [userQuery, lookup_cons_eq]
  · exact decodeStr_of_lookup (email_userDoc doc _)
  · exact decodeStr_of_lookup (fullname_userDoc doc _)
  · exact decodeStr_of_lookup (gravatarid_userDoc doc _)
  · exact decodeTime_filter doc _ (lookup_userQuery_other doc _ (by decide))
  · show (decodeStrs (userDoc doc (userQuery doc)) "groups").Nodup
    rw [groups_userDoc]
    exact addEach_nodup _ _ (by rw [decodeStrs_userQuery doc _ (by decide)]; exact List.nodup_nil)
  · intro g
    show g ∈ decodeStrs (userDoc doc (userQuery doc)) "groups" ↔ _
    rw [groups_userDoc, mem_addEach, decodeStrs_userQuery doc _ (by decide)]
    simp
  · intro hn
    show decodeStrs (userDoc doc (userQuery doc)) "groups" = _
    rw [groups_userDoc, decodeStrs_userQuery doc _ (by decide), addEach_of_nodup _ _ (by simpa using hn)]
    rfl
  · show (decodeStrs (userDoc doc (userQuery doc)) "ssh_keys").Nodup
    rw [ssh_keys_userDoc]
    exact addEach_nodup _ _ (by rw [decodeStrs_userQuery doc _ (by decide)]; exact List.nodup_nil)
  · intro g
    show g ∈ decodeStrs (userDoc doc (userQuery doc)) "ssh_keys" ↔ _
    rw [ssh_keys_userDoc, mem_addEach, decodeStrs_userQuery doc _ (by decide)]
    simp
  · intro hn
    show decodeStrs (userDoc doc (userQuery doc)) "ssh_keys" = _
    rw [ssh_keys_userDoc, decodeStrs_userQuery doc _ (by decide), addEach_of_nodup _ _ (by simpa using hn)]
    rfl

/-- C3: for a stored identity and a supplied document with the same username and external
id, after a successful `UpsertUser` the stored groups are the union of the groups stored
before and the supplied ones, and likewise the SSH keys; nothing stored is removed, and an
empty supplied list leaves the stored list as it was. -/
theorem UpsertUser_unions_groups_and_keys (names : Names) (s s' : Collection)
    (doc old : Identity)
    (hold : GetIdentity s doc.Username = .ok old) (hext : old.ExternalID = doc.ExternalID)
    (h : UpsertUser names s doc = (none, s')) :
    ∃ new, GetIdentity s' doc.Username = .ok new ∧
      (∀ g, g ∈ new.Groups ↔ g ∈ old.Groups ∨ g ∈ doc.Groups) ∧
      (∀ k, k ∈ new.SSHKeys ↔ k ∈ old.SSHKeys ∨ k ∈ doc.SSHKeys) ∧
      (doc.Groups = [] → new.Groups = old.Groups) ∧
      (doc.SSHKeys = [] → new.SSHKeys = old.SSHKeys) := by
  obtain ⟨d, hd, hget⟩ := user_merge_get hold hext h
  subst hd
  refine ⟨_, hget, ?_, ?_, ?_, ?_⟩
  · intro g
    show g ∈ decodeStrs (userDoc doc d) "groups" ↔ g ∈ decodeStrs d "groups" ∨ _
    rw [groups_userDoc, mem_addEach]
  · intro g
    show g ∈ decodeStrs (userDoc doc d) "ssh_keys" ↔ g ∈ decodeStrs d "ssh_keys" ∨ _
    rw [ssh_keys_userDoc, mem_addEach]
  · intro hn
    show decodeStrs (userDoc doc d) "groups" = decodeStrs d "groups"
    rw [groups_userDoc, hn]; rfl
  · intro hn
    show decodeStrs (userDoc doc d) "ssh_keys" = decodeStrs d "ssh_keys"
    rw [ssh_keys_userDoc, hn]; rfl

theorem extra_step {names : Names} {s s' : Collection} {doc old : Identity}
    (hold : GetIdentity s doc.Username = .ok old) (hext : old.ExternalID = doc.ExternalID)
    (hmap : (doc.ExtraInfo.map Prod.fst).Nodup)
    (h : UpsertUser names s doc = (none, s')) :
    ∃ new, GetIdentity s' doc.Username = .ok new ∧ new.ExternalID = doc.ExternalID ∧
      (∀ kv ∈ doc.ExtraInfo, new.ExtraInfo.lookup kv.1 = some kv.2) ∧
      (∀ k, k ∉ doc.ExtraInfo.map Prod.fst → new.ExtraInfo.lookup k = old.ExtraInfo.lookup k) ∧
      ∀ k, new.ExtraInfo.lookup k = (doc.ExtraInfo.lookup k <|> old.ExtraInfo.lookup k) := by
  obtain ⟨d, hd, hget⟩ := user_merge_get hold hext h
  subst hd
  have hnew : ∀ kv ∈ doc.ExtraInfo,
      (decodeIdentity (userDoc doc d)).ExtraInfo.lookup kv.1 = some kv.2 :=
    fun kv hkv => extraGet_userDoc_new doc d kv.1 kv.2 hkv hmap
  have hkeep : ∀ k, k ∉ doc.ExtraInfo.map Prod.fst →
      (decodeIdentity (userDoc doc d)).ExtraInfo.lookup k = (decodeIdentity d).ExtraInfo.lookup k :=
    fun k hk => extraGet_userDoc_old doc d k hk
  refine ⟨_, hget, ?_, hnew, hkeep, ?_⟩
  · show decodeStr (userDoc doc d) "external_id" = _
    unfold decodeStr
    rw [lookup_userDoc_external_id]
    exact hext
  · intro k
    cases hl : List.lookup k doc.ExtraInfo with
    | none =>
      rw [hkeep k (lookup_none_not_mem _ _ hl)]
      rfl
    | some v =>
      rw [hnew (k, v) (lookup_mem _ _ _ hl)]
      rfl

/-- C4: for a stored identity and a supplied document with the same username and external
id, after a successful `UpsertUser` the stored extra-info has the supplied value at every
supplied key and its previous value at every other key; a second successful `UpsertUser`
for the same identity then yields the union of the extra-info, the later value winning on
a shared key. -/
theorem UpsertUser_merges_extra_info (names : Names) (s s' : Collection) (doc old : Identity)
    (hold : GetIdentity s doc.Username = .ok old) (hext : old.ExternalID = doc.ExternalID)
    (hmap : (doc.ExtraInfo.map Prod.fst).Nodup)
    (h : UpsertUser names s doc = (none, s')) :
    ∃ new, GetIdentity s' doc.Username = .ok new ∧
      (∀ kv ∈ doc.ExtraInfo, new.ExtraInfo.lookup kv.1 = some kv.2) ∧
      (∀ k, k ∉ doc.ExtraInfo.map Prod.fst → new.ExtraInfo.lookup k = old.ExtraInfo.lookup k) ∧
      ∀ (later : Identity) (s2 : Collection), later.Username = doc.Username →
        later.ExternalID = doc.ExternalID → (later.ExtraInfo.map Prod.fst).Nodup →
        UpsertUser names s' later = (none, s2) →
        ∃ fin, GetIdentity s2 doc.Username = .ok fin ∧
          ∀ k, fin.ExtraInfo.lookup k =
            (later.ExtraInfo.lookup k <|> doc.ExtraInfo.lookup k <|> old.ExtraInfo.lookup k) := by
  obtain ⟨new, h1, h2, h3, h4, h5⟩ := extra_step hold hext hmap h
  refine ⟨new, h1, h3, h4, ?_⟩
  intro later s2 hu hx hm hl
  rw [← hu] at h1
  obtain ⟨fin, g1, _, _, _, g5⟩ := extra_step h1 (h2.trans hx.symm) hm hl
  rw [hu] at g1
  refine ⟨fin, g1, fun k => ?_⟩
  rw [g5 k, h5 k]

/-- The merge of extra-info on the sample store: `k1` is overwritten, `k2` added. -/
theorem UpsertUser_merges_extra_info_witness :
    ∃ new, GetIdentity (UpsertUser sampleNames bobStore bobLater).2 bobLater.Username = .ok new ∧
      (∀ kv ∈ bobLater.ExtraInfo, new.ExtraInfo.lookup kv.1 = some kv.2) ∧
      (∀ k, k ∉ bobLater.ExtraInfo.map Prod.fst →
        new.ExtraInfo.lookup k = bobStored.ExtraInfo.lookup k) ∧
      ∀ (later : Identity) (s2 : Collection), later.Username = bobLater.Username →
        later.ExternalID = bobLater.ExternalID → (later.ExtraInfo.map Prod.fst).Nodup →
        UpsertUser sampleNames (UpsertUser sampleNames bobStore bobLater).2 later = (none, s2) →
        ∃ fin, GetIdentity s2 bobLater.Username = .ok fin ∧
          ∀ k, fin.ExtraInfo.lookup k =
            (later.ExtraInfo.lookup k <|> bobLater.ExtraInfo.lookup k <|>
              bobStored.ExtraInfo.lookup k) :=
  UpsertUser_merges_extra_info sampleNames bobStore _ bobLater _ (by rfl) (by rfl) (by decide)
    (by rfl)

/-- The union of groups and keys on the sample store. -/
theorem UpsertUser_unions_groups_and_keys_witness :
    ∃ new, GetIdentity (UpsertUser sampleNames bobStore bobLater).2 bobLater.Username = .ok new ∧
      (∀ g, g ∈ new.Groups ↔ g ∈ bobStored.Groups ∨ g ∈ bobLater.Groups) ∧
      (∀ k, k ∈ new.SSHKeys ↔
        k ∈ bobStored.SSHKeys ∨ k ∈ bobLater.SSHKeys) ∧
      (bobLater.Groups = [] → new.Groups = bobStored.Groups) ∧
      (bobLater.SSHKeys = [] → new.SSHKeys = bobStored.SSHKeys) :=
  UpsertUser_unions_groups_and_keys sampleNames bobStore _ bobLater _ (by rfl) (by rfl) (by rfl)

/-- C5 (amended): for a document with a valid username and a non-empty external id, if the
store already holds an identity with the supplied username but a different external id, or
with the supplied external id but a different username, then `UpsertUser` returns an error
whose cause is `ErrAlreadyExists` and the store is exactly what it was. -/
theorem UpsertUser_conflict_already_exists (names : Names) (s : Collection) (doc : Identity)
    (hwf : wf s) (hv : names.IsValidUser doc.Username = true) (he : doc.ExternalID ≠ "")
    (hc : ∃ e ∈ s,
      (List.lookup "username" e = some (Value.str doc.Username) ∧
        List.lookup "external_id" e ≠ some (Value.str doc.ExternalID)) ∨
      (List.lookup "external_id" e = some (Value.str doc.ExternalID) ∧
        List.lookup "username" e ≠ some (Value.str doc.Username))) :
    ∃ err, UpsertUser names s doc = (some err, s) ∧
      Cause err = .sentinel .ErrAlreadyExists := by
  obtain ⟨e, hes, hce⟩ := hc
  have hu : List.lookup "username" (userDoc doc (userQuery doc)) =
      some (Value.str doc.Username) := by
    rw [lookup_userDoc_username]; simp [userQuery, lookup_cons_eq]
  have hx : List.lookup "external_id" (userDoc doc (userQuery doc)) =
      some (Value.str doc.ExternalID) := by
    rw [lookup_userDoc_external_id]; simp [userQuery, lookup_cons_eq]
  have hnone : findSplit (matchesSel (userQuery doc)) s = none := by
    cases hf : findSplit (matchesSel (userQuery doc)) s with
    | none => rfl
    | some r =>
      exfalso
      obtain ⟨pre, m, post⟩ := r
      obtain ⟨hs, hm, _⟩ := findSplit_some hf
      obtain ⟨hm1, hm2⟩ := (matchesSel_userQuery doc m).mp hm
      have hms : m ∈ s := by rw [hs]; simp
      have hne : m ≠ e := by
        intro heq
        subst heq
        rcases hce with ⟨_, h2⟩ | ⟨_, h2⟩
        · exact h2 hm2
        · exact h2 hm1
      have hfree := wf_clash_free hwf hms hes hne
      have hclash : dupKey m [e] = true := by
        rcases hce with ⟨h1, _⟩ | ⟨h1, _⟩
        · exact dupKey_true_of_username (List.mem_singleton_self e) (h1.trans hm1.symm)
        · exact dupKey_true_of_external_id (List.mem_singleton_self e) (by rw [hm2]; simp)
            (h1.trans hm2.symm)
      rw [hfree] at hclash
      exact Bool.noConfusion hclash
  have hdup : dupKey (userDoc doc (userQuery doc)) s = true := by
    rcases hce with ⟨h1, _⟩ | ⟨h1, _⟩
    · exact dupKey_true_of_username hes (h1.trans hu.symm)
    · exact dupKey_true_of_external_id hes (by rw [hx]; simp) (h1.trans hx.symm)
  refine ⟨_, UpsertUser_of_dup names s s doc hv he ?_, rfl⟩
  exact Upsert_insert_dup hnone
    (applyUser_ok doc _ (Or.inl (lookup_userQuery_other doc _ (by decide)))
      (Or.inl (lookup_userQuery_other doc _ (by decide)))) hdup

/-- The username `bob` is taken under another external id in the sample store. -/
theorem UpsertUser_conflict_already_exists_witness :
    ∃ err, UpsertUser sampleNames bobStore { bob with ExternalID := "x2" } = (some err, bobStore) ∧
      Cause err = .sentinel .ErrAlreadyExists :=
  UpsertUser_conflict_already_exists sampleNames bobStore { bob with ExternalID := "x2" }
    (by decide) (by decide) (by decide)
    ⟨bobStore.headD [], by decide, Or.inl ⟨by decide, by decide⟩⟩

/-- C5 as stated fails: the sample store holds `bob` under the external id `x1`, the
supplied document names `bob` with an empty external id, and the error that `UpsertUser`
returns does not have the cause `ErrAlreadyExists`. -/
theorem UpsertUser_conflict_counterexample :
    wf bobStore ∧
    (∃ e ∈ bobStore, List.lookup "username" e = some (Value.str "bob") ∧
      List.lookup "external_id" e ≠ some (Value.str "")) ∧
    (UpsertUser sampleNames bobStore { bob with ExternalID := "" }).1 =
      some (New "no external_id specified") ∧
    Cause (New "no external_id specified") ≠ .sentinel .ErrAlreadyExists :=
  ⟨by decide, ⟨bobStore.headD [], by decide, by decide, by decide⟩, by rfl, by decide⟩

/-- C6: for every document whose username is not a valid user name, whatever its other
fields, `UpsertUser` returns an error whose cause is `ErrInvalidData` and leaves the store
as it was. -/
theorem UpsertUser_invalid_username (names : Names) (s : Collection) (doc : Identity)
    (h : names.IsValidUser doc.Username = false) :
    ∃ err, UpsertUser names s doc = (some err, s) ∧
      Cause err = .sentinel .ErrInvalidData := by
  refine ⟨WithCausef none .ErrInvalidData "invalid username %q", ?_, rfl⟩
  simp [UpsertUser, h]

/-- An invalid username on the sample store. -/
theorem UpsertUser_invalid_username_witness :
    ∃ err, UpsertUser sampleNames bobStore { bob with Username := "b b" } = (some err, bobStore) ∧
      Cause err = .sentinel .ErrInvalidData :=
  UpsertUser_invalid_username sampleNames bobStore { bob with Username := "b b" } (by decide)

/-- C7 (amended): for every document with a valid username and an empty external id,
`UpsertUser` fails with the error `no external_id specified`, made by `errgo.New`, which is
its own cause: the cause is not `ErrInvalidData`; the store is left as it was. -/
theorem UpsertUser_empty_external_id (names : Names) (s : Collection) (doc : Identity)
    (hv : names.IsValidUser doc.Username = true) (he : doc.ExternalID = "") :
    UpsertUser names s doc = (some (New "no external_id specified"), s) ∧
      Cause (New "no external_id specified") = New "no external_id specified" ∧
      Cause (New "no external_id specified") ≠ .sentinel .ErrInvalidData := by
  refine ⟨?_, rfl, by decide⟩
  simp [UpsertUser, hv, he]

/-- An empty external id on the sample store. -/
theorem UpsertUser_empty_external_id_witness :
    UpsertUser sampleNames bobStore { bob with ExternalID := "" } =
        (some (New "no external_id specified"), bobStore) ∧
      Cause (New "no external_id specified") = New "no external_id specified" ∧
      Cause (New "no external_id specified") ≠ .sentinel .ErrInvalidData :=
  UpsertUser_empty_external_id sampleNames bobStore { bob with ExternalID := "" }
    (by decide) (by decide)

/-- C7 as stated fails: `bob` is a valid username, the external id is empty, and the cause
of the error that `UpsertUser` returns is not `ErrInvalidData`. -/
theorem UpsertUser_empty_external_id_counterexample :
    sampleNames.IsValidUser "bob" = true ∧
    (UpsertUser sampleNames [] { bob with ExternalID := "" }).1.map Cause ≠
      some (.sentinel .ErrInvalidData) := by
  decide

/-- C2 as stated fails: upserted into the empty store, the sample document, whose groups
are `b, a, a` and whose last-login is the zero time, is read back with the groups `b, a`
and without a last-login. -/
theorem UpsertUser_fresh_counterexample :
    sampleNames.IsValidUser bob.Username = true ∧ bob.ExternalID ≠ "" ∧
    (UpsertUser sampleNames [] bob).1 = none ∧
    (GetIdentity (UpsertUser sampleNames [] bob).2 bob.Username).toOption.map
      (fun r => r.Groups) = some ["b", "a"] ∧
    bob.Groups = ["b", "a", "a"] ∧
    (GetIdentity (UpsertUser sampleNames [] bob).2 bob.Username).toOption.map
      (fun r => r.LastLogin) = some none ∧
    bob.LastLogin = some ⟨0⟩ := by
  decide

/-- The sample document upserted into the empty store. -/
theorem UpsertUser_fresh_then_GetIdentity_witness :
    ∃ s' r, UpsertUser sampleNames [] bob = (none, s') ∧ GetIdentity s' bob.Username = .ok r ∧
      r.Username = bob.Username ∧ r.ExternalID = bob.ExternalID ∧ r.Email = bob.Email ∧
      r.FullName = bob.FullName ∧ r.GravatarID = bob.GravatarID ∧
      r.LastLogin = bob.LastLogin.filter (fun t => !t.IsZero) ∧
      r.Groups.Nodup ∧ (∀ g, g ∈ r.Groups ↔ g ∈ bob.Groups) ∧
      (bob.Groups.Nodup → r.Groups = bob.Groups) ∧
      r.SSHKeys.Nodup ∧ (∀ k, k ∈ r.SSHKeys ↔ k ∈ bob.SSHKeys) ∧
      (bob.SSHKeys.Nodup → r.SSHKeys = bob.SSHKeys) :=
  UpsertUser_fresh_then_GetIdentity sampleNames [] bob (by decide) (by decide) (by simp)

theorem span_at (l : List Char) :
    (l.takeWhile (fun ch => ch != '@') = l ∧ l.dropWhile (fun ch => ch != '@') = [] ∧ '@' ∉ l) ∨
    ∃ t, l.dropWhile (fun ch => ch != '@') = '@' :: t ∧
      l = l.takeWhile (fun ch => ch != '@') ++ '@' :: t ∧
      '@' ∉ l.takeWhile (fun ch => ch != '@') := by
  induction l with
  | nil => left; simp
  | cons a l ih =>
    by_cases ha : a = '@'
    · right
      subst ha
      exact ⟨l, by simp, by simp, by simp⟩
    · have hp : (a != '@') = true := by simpa using ha
      rcases ih with ⟨h1, h2, h3⟩ | ⟨t, h1, h2, h3⟩
      · left
        refine ⟨?_, ?_, ?_⟩
        · rw [List.takeWhile_cons, hp]; simp [h1]
        · rw [List.dropWhile_cons, hp]; simpa using h2
        · simp only [List.mem_cons, not_or]
          exact ⟨fun e => ha e.symm, h3⟩
      · right
        refine ⟨t, ?_, ?_, ?_⟩
        · rw [List.dropWhile_cons, hp]; simpa using h1
        · rw [List.takeWhile_cons, hp]
          simp only [if_true, List.cons_append]
          rw [← h2]
        · rw [List.takeWhile_cons, hp]
          simp only [if_true, List.mem_cons, not_or]
          exact ⟨fun e => ha e.symm, h3⟩

theorem span_of_at (x y : List Char) (hx : '@' ∉ x) :
    (x ++ '@' :: y).takeWhile (fun ch => ch != '@') = x ∧
      (x ++ '@' :: y).dropWhile (fun ch => ch != '@') = '@' :: y := by
  induction x with
  | nil => simp
  | cons a x ih =>
    simp only [List.mem_cons, not_or] at hx
    have hp : (a != '@') = true := by simpa using fun e : a = '@' => hx.1 e.symm
    have := ih hx.2
    simp only [List.cons_append, List.takeWhile_cons, List.dropWhile_cons, hp, if_true, this,
      and_self]

theorem SplitN2_of_at (name owner : String) (h : '@' ∉ name.data) :
    SplitN2 (name ++ "@" ++ owner) = [name, owner] := by
  have hd : (name ++ "@" ++ owner).data = name.data ++ '@' :: owner.data := by
    simp [String.data_append]
  unfold SplitN2
  rw [List.span_eq_take_drop, hd, (span_of_at _ _ h).1, (span_of_at _ _ h).2]

theorem SplitN2_cases (s : String) :
    SplitN2 s = [s] ∨
      ∃ name owner : String, s = name ++ "@" ++ owner ∧ '@' ∉ name.data ∧
        SplitN2 s = [name, owner] := by
  rcases span_at s.data with ⟨_, h2, _⟩ | ⟨t, h1, h2, h3⟩
  · left
    unfold SplitN2
    rw [List.span_eq_take_drop, h2]
  · right
    have hs : s = String.mk (s.data.takeWhile (fun ch => ch != '@')) ++ "@" ++ String.mk t := by
      apply String.ext
      simp only [String.data_append]
      rw [h2]
      simp [← h2]
    have key : ∀ name owner : String, s = name ++ "@" ++ owner → '@' ∉ name.data →
        SplitN2 s = [name, owner] := by
      intro name owner e hn
      rw [e]
      exact SplitN2_of_at _ _ hn
    exact ⟨_, _, hs, h3, key _ _ hs h3⟩

theorem SplitN2_no_at {s : String} (h : SplitN2 s = [s]) (name owner : String)
    (hn : '@' ∉ name.data) : s ≠ name ++ "@" ++ owner := by
  intro e
  rw [e, SplitN2_of_at _ _ hn] at h
  have := congrArg List.length h
  simp at this

theorem Mask_nil_cause {x : Option Error} {err : Error} (h : Mask x [] = some err) :
    Cause err = err ∧ Cause err ≠ .sentinel .ErrInvalidData := by
  unfold Mask at h
  cases x with
  | none => simp at h
  | some e =>
    simp only at h
    cases hc : Cause e with
    | sentinel c =>
      rw [hc] at h
      simp at h
      subst h
      exact ⟨rfl, by simp [Cause]⟩
    | errgo m c =>
      rw [hc] at h
      simp at h
      subst h
      exact ⟨rfl, by simp [Cause]⟩

theorem UpsertAgent_of_valid (names : Names) (s : Collection) (doc : Identity)
    (name owner : String) (h1 : doc.Username = name ++ "@" ++ owner) (h2 : '@' ∉ name.data)
    (h3 : names.IsValidUserName name = true) (h4 : names.IsValidUser owner = true)
    (h5 : names.IsValidUser doc.Owner = true) :
    UpsertAgent names s doc =
      (Mask (upsertIdentity s (agentQuery doc) (agentSet doc) []).1 [],
        (upsertIdentity s (agentQuery doc) (agentSet doc) []).2) := by
  unfold UpsertAgent agentQuery agentSet lastLoginSet
  rw [h1, SplitN2_of_at _ _ h2]
  simp only [h3, h4, h5, Bool.not_true, Bool.false_eq_true, if_false]
  cases doc.LastLogin with
  | none => rfl
  | some t => by_cases ht : t.IsZero = true <;> simp [ht]

theorem UpsertAgent_of_invalid (names : Names) (s : Collection) (doc : Identity)
    (h : ¬ agentValid names doc) :
    ∃ err, UpsertAgent names s doc = (some err, s) ∧ Cause err = .sentinel .ErrInvalidData := by
  unfold UpsertAgent
  rcases SplitN2_cases doc.Username with hs | ⟨name, owner, h1, h2, hs⟩
  · rw [hs]
    exact ⟨_, rfl, rfl⟩
  · rw [hs]
    simp only
    by_cases h3 : names.IsValidUserName name = true
    · by_cases h4 : names.IsValidUser owner = true
      · by_cases h5 : names.IsValidUser doc.Owner = true
        · exact absurd ⟨name, owner, h1, h2, h3, h4, h5⟩ h
        · simp only [h3, h4, h5, Bool.not_true, Bool.false_eq_true, if_false]
          exact ⟨_, rfl, rfl⟩
      · simp only [h3, h4, Bool.not_true, Bool.false_eq_true, if_false]
        exact ⟨_, rfl, rfl⟩
    · simp only [h3]
      exact ⟨_, rfl, rfl⟩

/-- C8: `UpsertAgent` returns an error whose cause is `ErrInvalidData` exactly when the
username holds no `@`, or the part before the first `@` is not a valid user name, or the
part after it is not a valid user, or the owner is not a valid user; the store is then left
as it was, and in every other case the result is that of the store upsert. -/
theorem UpsertAgent_invalid_data_iff (names : Names) (s : Collection) (doc : Identity) :
    ((UpsertAgent names s doc).1.map Cause = some (.sentinel .ErrInvalidData) ↔
        ¬ agentValid names doc) ∧
      (¬ agentValid names doc → (UpsertAgent names s doc).2 = s) ∧
      (agentValid names doc →
        UpsertAgent names s doc =
          (Mask (upsertIdentity s
              [("username", .str doc.Username), ("owner", .str doc.Owner)]
              ([("groups", .strs doc.Groups), ("public_keys", .keys doc.PublicKeys)] ++
                lastLoginSet doc.LastLogin) []).1 [],
            (upsertIdentity s
              [("username", .str doc.Username), ("owner", .str doc.Owner)]
              ([("groups", .strs doc.Groups), ("public_keys", .keys doc.PublicKeys)] ++
                lastLoginSet doc.LastLogin) []).2)) := by
  refine ⟨⟨?_, ?_⟩, ?_, ?_⟩
  · intro h hv
    obtain ⟨name, owner, h1, h2, h3, h4, h5⟩ := hv
    rw [UpsertAgent_of_valid names s doc name owner h1 h2 h3 h4 h5] at h
    simp only at h
    cases hm : Mask (upsertIdentity s (agentQuery doc) (agentSet doc) []).1 [] with
    | none => rw [hm] at h; simp at h
    | some err =>
      rw [hm] at h
      simp only [Option.map_some', Option.some.injEq] at h
      exact (Mask_nil_cause hm).2 h
  · intro h
    obtain ⟨err, h1, h2⟩ := UpsertAgent_of_invalid names s doc h
    rw [h1]
    simp [h2]
  · intro h
    obtain ⟨err, h1, _⟩ := UpsertAgent_of_invalid names s doc h
    rw [h1]
  · rintro ⟨name, owner, h1, h2, h3, h4, h5⟩
    exact UpsertAgent_of_valid names s doc name owner h1 h2 h3 h4 h5

theorem Mask_none {x : Option Error} (h : Mask x [] = none) : x = none := by
  unfold Mask at h
  cases x with
  | none => rfl
  | some e =>
    simp only at h
    cases hc : Cause e <;> rw [hc] at h <;> simp at h

theorem upsertIdentity_ok_inv {s s' : Collection} {q set add : D}
    (h : upsertIdentity s q set add = (none, s')) :
    Upsert s q (mkUpdate set add) = (none, s') := by
  rw [upsertIdentity_eq] at h
  rcases Upsert_err s q (mkUpdate set add) with h1 | ⟨h1, _⟩ | ⟨h1, _⟩
  · rw [h1] at h
    simp [IsDup, Mask] at h
    exact Prod.ext h1 h
  · rw [h1] at h
    simp [IsDup, Mask, Cause, Error.msg] at h
  · rw [h1] at h
    simp [IsDup, Mask, Cause, WithCausef] at h

theorem Upsert_ok_inv {c s' : Collection} {q : D} {u : List (String × D)}
    (h : Upsert c q u = (none, s')) :
    ∃ pre post d d', applyUpdate u d = some d' ∧ s' = pre ++ d' :: post ∧
      dupKey d' (pre ++ post) = false ∧
      ((c = pre ++ d :: post ∧ matchesSel q d = true) ∨ (c = pre ∧ post = [] ∧ d = q)) := by
  cases hf : findSplit (matchesSel q) c with
  | some r =>
    obtain ⟨pre, d, post⟩ := r
    obtain ⟨d', h1, h2, h3⟩ := Upsert_match_ok_inv hf h
    obtain ⟨hs, hm, _⟩ := findSplit_some hf
    exact ⟨pre, post, d, d', h1, h3, h2, Or.inl ⟨hs, hm⟩⟩
  | none =>
    unfold Upsert at h
    rw [hf] at h
    simp only at h
    cases h2 : applyUpdate u q with
    | none => rw [h2] at h; simp at h
    | some d' =>
      rw [h2] at h
      simp only at h
      by_cases h3 : dupKey d' c = true
      · rw [if_pos h3] at h; simp at h
      · rw [if_neg h3] at h
        refine ⟨c, [], q, d', h2, ?_, by simpa using h3, Or.inr ⟨rfl, rfl, rfl⟩⟩
        exact (congrArg Prod.snd h).symm

theorem agentSet_ne_nil (doc : Identity) : agentSet doc ≠ [] := by
  simp [agentSet]

theorem not_mem_lastLoginSet (ll : Option Time) (k : String) (h : k ≠ "lastlogin") :
    k ∉ (lastLoginSet ll).map Prod.fst := by
  unfold lastLoginSet
  cases ll with
  | none => simp
  | some t => by_cases ht : t.IsZero = true <;> simp [ht, h]

theorem lookup_agent_username (doc : Identity) (d : D) :
    List.lookup "username" (setAll d (agentSet doc)) = List.lookup "username" d := by
  apply lookup_setAll_of_not_mem
  unfold agentSet
  simp only [List.map_append, List.map_cons, List.map_nil, List.mem_append, List.mem_cons,
    not_or]
  exact ⟨⟨by decide, by decide, by simp⟩, not_mem_lastLoginSet _ _ (by decide)⟩

theorem lookup_agent_groups (doc : Identity) (d : D) :
    List.lookup "groups" (setAll d (agentSet doc)) = some (Value.strs doc.Groups) := by
  have : agentSet doc = [] ++ ("groups", Value.strs doc.Groups) ::
      (("public_keys", Value.keys doc.PublicKeys) :: lastLoginSet doc.LastLogin) := rfl
  rw [this]
  apply lookup_setAll_of_split
  simp only [List.map_cons, List.mem_cons, not_or]
  exact ⟨by decide, not_mem_lastLoginSet _ _ (by decide)⟩

theorem lookup_agent_public_keys (doc : Identity) (d : D) :
    List.lookup "public_keys" (setAll d (agentSet doc)) = some (Value.keys doc.PublicKeys) := by
  have : agentSet doc = [("groups", Value.strs doc.Groups)] ++
      ("public_keys", Value.keys doc.PublicKeys) :: lastLoginSet doc.LastLogin := rfl
  rw [this]
  apply lookup_setAll_of_split
  exact not_mem_lastLoginSet _ _ (by decide)

/-- C9: after a successful `UpsertAgent` the stored identity has exactly the supplied group
list and the supplied public-key list, whatever was stored before. -/
theorem UpsertAgent_replaces_groups_and_keys (names : Names) (s s' : Collection)
    (doc : Identity) (h : UpsertAgent names s doc = (none, s')) :
    ∃ r, GetIdentity s' doc.Username = .ok r ∧ r.Groups = doc.Groups ∧
      r.PublicKeys = doc.PublicKeys := by
  by_cases hv : agentValid names doc
  · obtain ⟨name, owner, h1, h2, h3, h4, h5⟩ := hv
    rw [UpsertAgent_of_valid names s doc name owner h1 h2 h3 h4 h5] at h
    have hm := Mask_none (congrArg Prod.fst h)
    have hs : (upsertIdentity s (agentQuery doc) (agentSet doc) []).2 = s' := congrArg Prod.snd h
    have hres : upsertIdentity s (agentQuery doc) (agentSet doc) [] = (none, s') :=
      Prod.ext hm hs
    have hup := upsertIdentity_ok_inv hres
    obtain ⟨pre, post, d, d', ha, hs', hdup, hcase⟩ := Upsert_ok_inv hup
    rw [applyUpdate_mkUpdate _ _ (agentSet_ne_nil doc)] at ha
    simp only [applyFields, Option.some.injEq] at ha
    subst ha
    have hd : List.lookup "username" d = some (Value.str doc.Username) := by
      rcases hcase with ⟨_, hmatch⟩ | ⟨_, _, hq⟩
      · simp [matchesSel, agentQuery] at hmatch
        exact hmatch.1
      · rw [hq]; simp [agentQuery, lookup_cons_eq]
    have hu : List.lookup "username" (setAll d (agentSet doc)) =
        some (Value.str doc.Username) := by
      rw [lookup_agent_username]; exact hd
    have hfind : s'.find? (matchesSel [("username", Value.str doc.Username)]) =
        some (setAll d (agentSet doc)) := by
      rw [hs']
      apply find?_of_first
      · rw [matchesSel_username]; exact hu
      · intro e he
        rw [matchesSel_username_false, ← hu]
        exact ((dupKey_false_iff _ _).mp hdup e (List.mem_append_left _ he)).1
    refine ⟨_, GetIdentity_of_find hfind, ?_, ?_⟩
    · show decodeStrs (setAll d (agentSet doc)) "groups" = doc.Groups
      unfold decodeStrs
      rw [lookup_agent_groups]
    · show decodeKeys (setAll d (agentSet doc)) "public_keys" = doc.PublicKeys
      unfold decodeKeys
      rw [lookup_agent_public_keys]
  · obtain ⟨err, h1, _⟩ := UpsertAgent_of_invalid names s doc hv
    rw [h1] at h
    simp at h

/-- The groups and keys of the sample agent are replaced. -/
theorem UpsertAgent_replaces_groups_and_keys_witness :
    ∃ r, GetIdentity (UpsertAgent sampleNames agentStore agentLater).2 agentLater.Username = .ok r ∧
      r.Groups = agentLater.Groups ∧ r.PublicKeys = agentLater.PublicKeys :=
  UpsertAgent_replaces_groups_and_keys sampleNames agentStore _ agentLater (by rfl)

/-- The accepted sample agent document goes to the store upsert. -/
theorem UpsertAgent_invalid_data_iff_witness :
    UpsertAgent sampleNames agentStore agentLater =
      (Mask (upsertIdentity agentStore
          [("username", .str agentLater.Username), ("owner", .str agentLater.Owner)]
          ([("groups", .strs agentLater.Groups), ("public_keys", .keys agentLater.PublicKeys)] ++
            lastLoginSet agentLater.LastLogin) []).1 [],
        (upsertIdentity agentStore
          [("username", .str agentLater.Username), ("owner", .str agentLater.Owner)]
          ([("groups", .strs agentLater.Groups), ("public_keys", .keys agentLater.PublicKeys)] ++
            lastLoginSet agentLater.LastLogin) []).2) :=
  (UpsertAgent_invalid_data_iff sampleNames agentStore agentLater).2.2
    ⟨"bot", "bob", by decide, by decide, by decide, by decide, by decide⟩

/-- C10 fails on the code: two agent documents that agree on username, owner, groups and
public keys and differ in their last-login are not treated alike, and the stored last-login
of the agent changes. -/
theorem UpsertAgent_writes_last_login :
    ({ agent with LastLogin := some ⟨7⟩ } : Identity).Username = agent.Username ∧
    ({ agent with LastLogin := some ⟨7⟩ } : Identity).Owner = agent.Owner ∧
    ({ agent with LastLogin := some ⟨7⟩ } : Identity).Groups = agent.Groups ∧
    ({ agent with LastLogin := some ⟨7⟩ } : Identity).PublicKeys = agent.PublicKeys ∧
    UpsertAgent sampleNames agentStore { agent with LastLogin := some ⟨7⟩ } ≠
      UpsertAgent sampleNames agentStore agent ∧
    (GetIdentity agentStore "bot@bob").toOption.map (fun r => r.LastLogin) = some none ∧
    (GetIdentity (UpsertAgent sampleNames agentStore { agent with LastLogin := some ⟨7⟩ }).2
      "bot@bob").toOption.map (fun r => r.LastLogin) = some (some ⟨7⟩) := by
  decide

theorem dupKey_single {d : D} {others : List D} (h : dupKey d others = false) {e : D}
    (he : e ∈ others) : dupKey d [e] = false := by
  rw [dupKey_false_iff] at h ⊢
  intro x hx
  rw [List.mem_singleton] at hx
  subst hx
  exact h x he

theorem wf_insert {c : Collection} {d : D} (hwf : wf c) (h : dupKey d c = false) :
    wf (c ++ [d]) := by
  unfold wf at hwf ⊢
  rw [List.pairwise_append]
  refine ⟨hwf, List.pairwise_singleton _ _, ?_⟩
  intro a ha b hb
  rw [List.mem_singleton] at hb
  subst hb
  exact clash_symm (dupKey_single h ha)

theorem wf_replace {pre post : Collection} {d d' : D} (hwf : wf (pre ++ d :: post))
    (h : dupKey d' (pre ++ post) = false) : wf (pre ++ d' :: post) := by
  unfold wf at hwf ⊢
  rw [List.pairwise_append] at hwf ⊢
  obtain ⟨h1, h2, h3⟩ := hwf
  rw [List.pairwise_cons] at h2 ⊢
  refine ⟨h1, ⟨?_, h2.2⟩, ?_⟩
  · intro e he
    exact dupKey_single h (List.mem_append_right _ he)
  · intro a ha b hb
    rcases List.mem_cons.mp hb with rfl | hb
    · exact clash_symm (dupKey_single h (List.mem_append_left _ ha))
    · exact h3 a ha b (List.mem_cons_of_mem _ hb)

theorem Upsert_wf (c : Collection) (q : D) (u : List (String × D)) (hwf : wf c) :
    wf (Upsert c q u).2 := by
  rcases Upsert_err c q u with h1 | ⟨_, h2⟩ | ⟨_, h2⟩
  · have h : Upsert c q u = (none, (Upsert c q u).2) := Prod.ext h1 rfl
    obtain ⟨pre, post, d, d', _, hs', hdup, hcase⟩ := Upsert_ok_inv h
    rw [hs']
    rcases hcase with ⟨hc, _⟩ | ⟨hc, hp, _⟩
    · rw [hc] at hwf
      exact wf_replace hwf hdup
    · subst hc hp
      rw [List.append_nil] at hdup
      exact wf_insert hwf hdup
  · rw [h2]; exact hwf
  · rw [h2]; exact hwf

theorem upsertIdentity_snd (s : Collection) (q set add : D) :
    (upsertIdentity s q set add).2 = (Upsert s q (mkUpdate set add)).2 := by
  rw [upsertIdentity_eq]
  by_cases h : IsDup (Upsert s q (mkUpdate set add)).1 = true
  · rw [if_pos h]
  · rw [if_neg h]

theorem UpsertUser_wf (names : Names) (s : Collection) (doc : Identity) (hwf : wf s) :
    wf (UpsertUser names s doc).2 := by
  by_cases hv : names.IsValidUser doc.Username = true
  · by_cases he : doc.ExternalID = ""
    · simp [UpsertUser, hv, he, hwf]
    · have h2 : (UpsertUser names s doc).2 =
          (upsertIdentity s (userQuery doc) (userSet doc) (userAddToSet doc)).2 := by
        rw [UpsertUser_eq names s doc hv he]
        by_cases hc : (upsertIdentity s (userQuery doc) (userSet doc) (userAddToSet doc)).1.map
            Cause = some (.sentinel .ErrAlreadyExists)
        · rw [if_pos hc]
        · rw [if_neg hc]
      rw [h2, upsertIdentity_snd]
      exact Upsert_wf _ _ _ hwf
  · simp [UpsertUser, hv, hwf]

theorem UpsertAgent_wf (names : Names) (s : Collection) (doc : Identity) (hwf : wf s) :
    wf (UpsertAgent names s doc).2 := by
  by_cases hv : agentValid names doc
  · obtain ⟨name, owner, h1, h2, h3, h4, h5⟩ := hv
    rw [UpsertAgent_of_valid names s doc name owner h1 h2 h3 h4 h5]
    simp only
    rw [upsertIdentity_snd]
    exact Upsert_wf _ _ _ hwf
  · obtain ⟨err, h1, _⟩ := UpsertAgent_of_invalid names s doc hv
    rw [h1]
    exact hwf

theorem Mask_some_ne_none (e : Error) (pass : List Sentinel) : Mask (some e) pass ≠ none := by
  unfold Mask
  simp only
  cases Cause e with
  | sentinel c => by_cases h : c ∈ pass <;> simp [h]
  | errgo m c => simp

theorem SetGroups_ok_inv {s s' : Collection} {u : String} {ss : List String}
    (h : SetGroups s u ss = (none, s')) :
    Update s [("username", Value.str u)]
      [("$set", [("groups", Value.strs (uniqueStrings ss))])] = (none, s') := by
  unfold SetGroups UpdateIdentity at h
  generalize Update s [("username", Value.str u)]
      [("$set", [("groups", Value.strs (uniqueStrings ss))])] = r at h ⊢
  obtain ⟨e, c⟩ := r
  cases e with
  | none => simpa using h
  | some err =>
    exfalso
    simp only at h
    by_cases hc : Cause err = .sentinel .mgoErrNotFound
    · rw [if_pos hc] at h
      simp only at h
      exact Mask_some_ne_none _ _ (Prod.mk.inj h).1
    · rw [if_neg hc] at h
      cases hm : Mask (some err) [] with
      | none => exact Mask_some_ne_none _ _ hm
      | some e2 =>
        rw [hm] at h
        simp only at h
        exact Mask_some_ne_none _ _ (Prod.mk.inj h).1

theorem Update_ok_inv {c s' : Collection} {q : D} {u : List (String × D)}
    (h : Update c q u = (none, s')) :
    ∃ pre d post d', findSplit (matchesSel q) c = some (pre, d, post) ∧
      applyUpdate u d = some d' ∧ s' = pre ++ d' :: post := by
  unfold Update at h
  cases hf : findSplit (matchesSel q) c with
  | none => rw [hf] at h; simp at h
  | some r =>
    obtain ⟨pre, d, post⟩ := r
    rw [hf] at h
    simp only at h
    cases h2 : applyUpdate u d with
    | none => rw [h2] at h; simp at h
    | some d' =>
      rw [h2] at h
      simp only at h
      by_cases h3 : dupKey d' (pre ++ post) = true
      · rw [if_pos h3] at h; simp at h
      · rw [if_neg h3] at h
        exact ⟨pre, d, post, d', rfl, h2, (congrArg Prod.snd h).symm⟩

theorem applyUpdate_set_groups (d : D) (v : Value) :
    applyUpdate [("$set", [("groups", v)])] d = some (setField d "groups" v) := by
  simp [applyUpdate, applyOp, applyFields, applySet]

theorem SetGroups_stores {s s' : Collection} {u : String} {ss : List String}
    (h : SetGroups s u ss = (none, s')) :
    ∃ r, GetIdentity s' u = .ok r ∧ r.Groups = uniqueStrings ss := by
  obtain ⟨pre, d, post, d', hf, ha, hs'⟩ := Update_ok_inv (SetGroups_ok_inv h)
  rw [applyUpdate_set_groups] at ha
  cases Option.some.inj ha
  obtain ⟨_, hm, hpre⟩ := findSplit_some hf
  have hfind : s'.find? (matchesSel [("username", Value.str u)]) =
      some (setField d "groups" (Value.strs (uniqueStrings ss))) := by
    rw [hs']
    apply find?_of_first _ hpre
    rw [matchesSel_username, lookup_setField_ne _ _ _ _ (by decide)]
    exact (matchesSel_username _ _).mp hm
  refine ⟨_, GetIdentity_of_find hfind, ?_⟩
  show decodeStrs (setField d "groups" (Value.strs (uniqueStrings ss))) "groups" = _
  unfold decodeStrs
  rw [lookup_setField_same]

theorem SetGroups_succeeds {s : Collection} {u : String} (ss : List String) (hwf : wf s)
    (hu : ∃ d ∈ s, List.lookup "username" d = some (Value.str u)) :
    (SetGroups s u ss).1 = none := by
  obtain ⟨e, hes, heu⟩ := hu
  cases hf : findSplit (matchesSel [("username", Value.str u)]) s with
  | none =>
    have := (findSplit_none.mp hf) e hes
    rw [matchesSel_username_false] at this
    exact absurd heu this
  | some r =>
    obtain ⟨pre, d, post⟩ := r
    obtain ⟨hs, _, _⟩ := findSplit_some hf
    rw [hs] at hwf
    have hdup : dupKey (setField d "groups" (Value.strs (uniqueStrings ss))) (pre ++ post) =
        false := by
      rw [dupKey_congr _ (lookup_setField_ne _ _ _ _ (by decide))
        (lookup_setField_ne _ _ _ _ (by decide))]
      exact wf_split hwf
    unfold SetGroups UpdateIdentity Update
    rw [hf]
    simp only [applyUpdate_set_groups, hdup]
    rfl

/-- C1: for every list of strings, `uniqueStrings` returns a strictly ascending list (sorted,
no two elements equal) that holds exactly the strings of the list; hence a successful
`SetGroups` stores the deduplicated, sorted group list, and it succeeds for every stored
username. -/
theorem uniqueStrings_sorted_dedup (ss : List String) :
    (uniqueStrings ss).Pairwise (fun a b => a < b) ∧
      (∀ x, x ∈ uniqueStrings ss ↔ x ∈ ss) ∧
      (∀ (s s' : Collection) (u : String), SetGroups s u ss = (none, s') →
        ∃ r, GetIdentity s' u = .ok r ∧ r.Groups = uniqueStrings ss) ∧
      (∀ (s : Collection) (u : String), wf s →
        (∃ d ∈ s, List.lookup "username" d = some (Value.str u)) →
        (SetGroups s u ss).1 = none) := by
  refine ⟨?_, (uniqueStrings_spec ss).2, fun s s' u h => SetGroups_stores h,
    fun s u hwf hu => SetGroups_succeeds ss hwf hu⟩
  exact (uniqueStrings_spec ss).1.imp (fun h => (str_lt_iff _ _).mpr h)

/-- The example of the specification: `SetGroups` of `b, a, a` stores `a, b`. -/
theorem uniqueStrings_sorted_dedup_witness :
    uniqueStrings ["b", "a", "a"] = ["a", "b"] ∧
    (SetGroups bobStore "bob" ["b", "a", "a"]).1 = none ∧
    ∃ r, GetIdentity (SetGroups bobStore "bob" ["b", "a", "a"]).2 "bob" = .ok r ∧
      r.Groups = ["a", "b"] :=
  ⟨by decide,
    (uniqueStrings_sorted_dedup ["b", "a", "a"]).2.2.2 bobStore "bob" (by decide)
      ⟨bobStore.headD [], by decide, by decide⟩,
    (uniqueStrings_sorted_dedup ["b", "a", "a"]).2.2.1 bobStore _ "bob" (by rfl)⟩

/-! The group mutators, the pool, the authorizer and the rendezvous store: properties. -/

theorem Update_of_match {c pre post : Collection} {q d d' : D} {u : List (String × D)}
    (h1 : findSplit (matchesSel q) c = some (pre, d, post)) (h2 : applyUpdate u d = some d')
    (h3 : dupKey d' (pre ++ post) = false) : Update c q u = (none, pre ++ d' :: post) := by
  unfold Update
  rw [h1]
  simp only [h2, h3]
  rfl

theorem Update_of_none {c : Collection} {q : D} (u : List (String × D))
    (h1 : findSplit (matchesSel q) c = none) :
    Update c q u = (some (.sentinel .mgoErrNotFound), c) := by
  unfold Update
  rw [h1]

theorem UpdateIdentity_of_ok {s s' : Collection} {u : String} {upd : List (String × D)}
    (h : Update s [("username", Value.str u)] upd = (none, s')) :
    UpdateIdentity s u upd = (none, s') := by
  unfold UpdateIdentity
  rw [h]

theorem UpdateIdentity_of_absent (s : Collection) (u : String) (upd : List (String × D))
    (h : ∀ d ∈ s, List.lookup "username" d ≠ some (Value.str u)) :
    UpdateIdentity s u upd =
      (some (WithCausef (some (.sentinel .mgoErrNotFound)) .ErrNotFound "user %q not found"),
        s) := by
  have hf : findSplit (matchesSel [("username", Value.str u)]) s = none := by
    rw [findSplit_none]
    intro e he
    rw [matchesSel_username_false]
    exact h e he
  unfold UpdateIdentity
  rw [Update_of_none upd hf]
  rfl

theorem GetIdentity_of_absent (s : Collection) (u : String)
    (h : ∀ d ∈ s, List.lookup "username" d ≠ some (Value.str u)) :
    GetIdentity s u =
      .error (WithCausef (some (.sentinel .mgoErrNotFound)) .ErrNotFound "user %q not found") := by
  have hf : s.find? (matchesSel [("username", Value.str u)]) = none := by
    rw [List.find?_eq_none]
    intro e he
    have := (matchesSel_username_false u e).mpr (h e he)
    simp [this]
  unfold GetIdentity FindOne
  rw [hf]
  rfl

/-- C12: for every username that no stored identity has, each of `SetGroups`, `AddGroups`,
`RemoveGroups`, `SetPublicKeys` and `GetIdentity` returns an error whose cause is
`params.ErrNotFound`, and the store is left as it was. -/
theorem unknown_username_not_found (s : Collection) (u : String) (groups : List String)
    (keys : List PublicKey)
    (h : ∀ d ∈ s, List.lookup "username" d ≠ some (Value.str u)) :
    (∃ err, SetGroups s u groups = (some err, s) ∧ Cause err = .sentinel .ErrNotFound) ∧
    (∃ err, AddGroups s u groups = (some err, s) ∧ Cause err = .sentinel .ErrNotFound) ∧
    (∃ err, RemoveGroups s u groups = (some err, s) ∧ Cause err = .sentinel .ErrNotFound) ∧
    (∃ err, SetPublicKeys s u keys = (some err, s) ∧ Cause err = .sentinel .ErrNotFound) ∧
    (∃ err, GetIdentity s u = .error err ∧ Cause err = .sentinel .ErrNotFound) := by
  refine ⟨?_, ?_, ?_, ?_, ?_⟩
  · unfold SetGroups
    rw [UpdateIdentity_of_absent s u _ h]
    exact ⟨_, rfl, rfl⟩
  · unfold AddGroups
    rw [UpdateIdentity_of_absent s u _ h]
    exact ⟨_, rfl, rfl⟩
  · unfold RemoveGroups
    rw [UpdateIdentity_of_absent s u _ h]
    exact ⟨_, rfl, rfl⟩
  · unfold SetPublicKeys
    rw [UpdateIdentity_of_absent s u _ h]
    exact ⟨_, rfl, rfl⟩
  · rw [GetIdentity_of_absent s u h]
    exact ⟨_, rfl, rfl⟩

/-- No identity of the sample store is called `carol`. -/
theorem unknown_username_not_found_witness :
    (∃ err, SetGroups bobStore "carol" ["g"] = (some err, bobStore) ∧
      Cause err = .sentinel .ErrNotFound) ∧
    (∃ err, AddGroups bobStore "carol" ["g"] = (some err, bobStore) ∧
      Cause err = .sentinel .ErrNotFound) ∧
    (∃ err, RemoveGroups bobStore "carol" ["g"] = (some err, bobStore) ∧
      Cause err = .sentinel .ErrNotFound) ∧
    (∃ err, SetPublicKeys bobStore "carol" [⟨[1]⟩] = (some err, bobStore) ∧
      Cause err = .sentinel .ErrNotFound) ∧
    (∃ err, GetIdentity bobStore "carol" = .error err ∧ Cause err = .sentinel .ErrNotFound) :=
  unknown_username_not_found bobStore "carol" ["g"] [⟨[1]⟩] (by decide)

theorem filter_addEach (G ss : List String) : ∀ cur : List String, (∀ x ∈ ss, x ∈ G) →
    (addEach cur ss).filter (fun g => !(G.contains g)) =
      cur.filter (fun g => !(G.contains g)) := by
  induction ss with
  | nil => intro cur _; rfl
  | cons a ss ih =>
    intro cur h
    have ha : a ∈ G := h a (List.mem_cons_self _ _)
    have h1 := ih (if a ∈ cur then cur else cur ++ [a])
      (fun x hx => h x (List.mem_cons_of_mem _ hx))
    simp only [addEach, List.foldl_cons] at h1 ⊢
    rw [h1]
    by_cases hc : a ∈ cur
    · rw [if_pos hc]
    · rw [if_neg hc, List.filter_append]
      simp [ha]

theorem filter_not_contains (G cur : List String) :
    cur.filter (fun g => !(G.contains g)) = cur.filter (fun g => decide (g ∉ G)) := by
  apply List.filter_congr
  intro x _
  simp

theorem groupsTyped_iff (d : D) : groupsTyped d = true ↔
    (List.lookup "groups" d = none ∨ ∃ cur, List.lookup "groups" d = some (Value.strs cur)) := by
  unfold groupsTyped
  cases h : List.lookup "groups" d with
  | none => simp
  | some v => cases v <;> simp

theorem applyUpdate_addToSet_groups {d : D} (G : List String) (h : groupsTyped d = true) :
    applyUpdate [("$addToSet", [("groups", Value.each G)])] d =
      some (setField d "groups" (Value.strs (addEach (decodeStrs d "groups") G))) := by
  have := @applyAddToSet_each_ok d "groups" G ((groupsTyped_iff d).mp h)
  simp [applyUpdate, applyOp, applyFields, this]

theorem applyUpdate_pullAll_groups {d : D} (G cur : List String)
    (h : List.lookup "groups" d = some (Value.strs cur)) :
    applyUpdate [("$pullAll", [("groups", Value.strs G)])] d =
      some (setField d "groups" (Value.strs (cur.filter (fun g => !(G.contains g))))) := by
  simp [applyUpdate, applyOp, applyFields, applyPullAll, h]

theorem AddGroups_ok {s pre post : Collection} {u : String} {d : D} (G : List String)
    (hf : findSplit (matchesSel [("username", Value.str u)]) s = some (pre, d, post))
    (hty : groupsTyped d = true) (hdup : dupKey d (pre ++ post) = false) :
    AddGroups s u G =
      (none, pre ++ setField d "groups" (Value.strs (addEach (decodeStrs d "groups") G)) ::
        post) := by
  have hd : dupKey (setField d "groups" (Value.strs (addEach (decodeStrs d "groups") G)))
      (pre ++ post) = false := by
    rw [dupKey_congr _ (lookup_setField_ne _ _ _ _ (by decide))
      (lookup_setField_ne _ _ _ _ (by decide))]
    exact hdup
  unfold AddGroups
  rw [UpdateIdentity_of_ok (Update_of_match hf (applyUpdate_addToSet_groups G hty) hd)]

theorem RemoveGroups_ok {s pre post : Collection} {u : String} {d : D} (G cur : List String)
    (hf : findSplit (matchesSel [("username", Value.str u)]) s = some (pre, d, post))
    (hg : List.lookup "groups" d = some (Value.strs cur))
    (hdup : dupKey d (pre ++ post) = false) :
    RemoveGroups s u G =
      (none, pre ++ setField d "groups" (Value.strs (cur.filter (fun g => !(G.contains g)))) ::
        post) := by
  have hd : dupKey (setField d "groups" (Value.strs (cur.filter (fun g => !(G.contains g)))))
      (pre ++ post) = false := by
    rw [dupKey_congr _ (lookup_setField_ne _ _ _ _ (by decide))
      (lookup_setField_ne _ _ _ _ (by decide))]
    exact hdup
  unfold RemoveGroups
  rw [UpdateIdentity_of_ok (Update_of_match hf (applyUpdate_pullAll_groups G cur hg) hd)]

/-- C11 (amended): for a stored username, `AddGroups(u, G)` followed by `RemoveGroups(u, G)`
both succeed and leave as groups of `u` the groups stored before without the members of
`G`; the stored groups are exactly what they were when no member of `G` was among them. -/
theorem AddGroups_then_RemoveGroups (s : Collection) (u : String) (G : List String)
    (old : Identity) (hwf : wf s) (hty : ∀ d ∈ s, groupsTyped d = true)
    (hold : GetIdentity s u = .ok old) :
    ∃ s1 s2 new, AddGroups s u G = (none, s1) ∧ RemoveGroups s1 u G = (none, s2) ∧
      GetIdentity s2 u = .ok new ∧
      new.Groups = old.Groups.filter (fun g => decide (g ∉ G)) ∧
      ((∀ g ∈ G, g ∉ old.Groups) → new.Groups = old.Groups) := by
  obtain ⟨d, hfind, hd⟩ := GetIdentity_ok_find hold
  subst hd
  obtain ⟨pre, post, hs, hm, hpre⟩ := find?_split hfind
  have hf : findSplit (matchesSel [("username", Value.str u)]) s = some (pre, d, post) := by
    rw [hs]; exact findSplit_of_first hm hpre
  have hdup : dupKey d (pre ++ post) = false := by
    rw [hs] at hwf; exact wf_split hwf
  have hdty : groupsTyped d = true := hty d (by rw [hs]; simp)
  have hu := (matchesSel_username _ _).mp hm
  have h1 := AddGroups_ok G hf hdty hdup
  have hm1 : matchesSel [("username", Value.str u)]
      (setField d "groups" (Value.strs (addEach (decodeStrs d "groups") G))) = true := by
    rw [matchesSel_username, lookup_setField_ne _ _ _ _ (by decide)]
    exact hu
  have hdup1 : dupKey (setField d "groups" (Value.strs (addEach (decodeStrs d "groups") G)))
      (pre ++ post) = false := by
    rw [dupKey_congr _ (lookup_setField_ne _ _ _ _ (by decide))
      (lookup_setField_ne _ _ _ _ (by decide))]
    exact hdup
  have h2 := RemoveGroups_ok G (addEach (decodeStrs d "groups") G)
    (@findSplit_of_first _ pre post _ hm1 hpre) (lookup_setField_same _ _ _) hdup1
  have hgroups : decodeStrs (setField (setField d "groups"
      (Value.strs (addEach (decodeStrs d "groups") G))) "groups"
      (Value.strs ((addEach (decodeStrs d "groups") G).filter (fun g => !(G.contains g)))))
      "groups" = (decodeStrs d "groups").filter (fun g => decide (g ∉ G)) := by
    unfold decodeStrs
    rw [lookup_setField_same]
    simp only
    rw [filter_addEach G G _ (fun x hx => hx), filter_not_contains]
  refine ⟨_, _, decodeIdentity (setField (setField d "groups"
      (Value.strs (addEach (decodeStrs d "groups") G))) "groups"
      (Value.strs ((addEach (decodeStrs d "groups") G).filter (fun g => !(G.contains g))))),
    h1, h2, ?_, hgroups, ?_⟩
  · apply GetIdentity_of_find
    apply find?_of_first _ hpre
    rw [matchesSel_username, lookup_setField_ne _ _ _ _ (by decide),
      lookup_setField_ne _ _ _ _ (by decide)]
    exact hu
  · intro hdis
    show decodeStrs _ "groups" = decodeStrs d "groups"
    rw [hgroups, List.filter_eq_self]
    intro g hg
    simp only [decide_eq_true_eq]
    exact fun hgG => hdis g hgG hg

/-- The round trip on the sample store with a group that was not stored. -/
theorem AddGroups_then_RemoveGroups_witness :
    ∃ s1 s2 new, AddGroups bobStore "bob" ["z", "y"] = (none, s1) ∧
      RemoveGroups s1 "bob" ["z", "y"] = (none, s2) ∧
      GetIdentity s2 "bob" = .ok new ∧
      new.Groups = bobStored.Groups.filter (fun g => decide (g ∉ ["z", "y"])) ∧
      ((∀ g ∈ ["z", "y"], g ∉ bobStored.Groups) → new.Groups = bobStored.Groups) :=
  AddGroups_then_RemoveGroups bobStore "bob" ["z", "y"] bobStored (by decide) (by decide)
    (by rfl)

/-- C11 as stated fails: the sample store holds `bob` with the groups `b, a`; after
`AddGroups` and `RemoveGroups` of the group `a`, which both succeed, the stored groups
are `b`. -/
theorem AddGroups_then_RemoveGroups_counterexample :
    (GetIdentity bobStore "bob").toOption.map (fun r => r.Groups) = some ["b", "a"] ∧
    (AddGroups bobStore "bob" ["a"]).1 = none ∧
    (RemoveGroups (AddGroups bobStore "bob" ["a"]).2 "bob" ["a"]).1 = none ∧
    (GetIdentity (RemoveGroups (AddGroups bobStore "bob" ["a"]).2 "bob" ["a"]).2
      "bob").toOption.map (fun r => r.Groups) = some ["b"] := by
  decide

/-- C13: `Pool.Get` returns a store, bound to the session, and no error when the session
pool yields a session for the request timeout; when the session pool reports that its limit
is exceeded, it returns no store and an error whose cause is `params.ErrServiceUnavailable`;
for any other error of the session pool it returns no store and an error whose cause is not
`ErrServiceUnavailable`. -/
theorem Pool_Get_outcomes (p : Pool) :
    (∀ session, p.sessionPoolGet p.RequestTimeout = .ok session →
      p.Get = (some (p.storePoolGet.setSession session), none)) ∧
    (p.sessionPoolGet p.RequestTimeout = .error (.sentinel .ErrLimitExceeded) →
      ∃ err, p.Get = (none, some err) ∧ Cause err = .sentinel .ErrServiceUnavailable) ∧
    (∀ e, e ≠ .sentinel .ErrLimitExceeded → p.sessionPoolGet p.RequestTimeout = .error e →
      ∃ err, p.Get = (none, some err) ∧ Cause err ≠ .sentinel .ErrServiceUnavailable) := by
  refine ⟨?_, ?_, ?_⟩
  · intro session h
    simp [Pool.Get, Pool.getSession, h]
  · intro h
    refine ⟨.errgo "too many mongo sessions in use" (some .ErrServiceUnavailable), ?_, rfl⟩
    simp [Pool.Get, Pool.getSession, h, Mask, Cause, WithCausef, Error.msg]
  · intro e hne h
    refine ⟨.errgo "cannot get Session" none, ?_, by simp [Cause]⟩
    simp [Pool.Get, Pool.getSession, h, hne, Mask, Cause, Notef, Error.msg]

/-- The three outcomes on sample pools: a session, the limit exceeded, a closed pool. -/
theorem Pool_Get_outcomes_witness :
    (samplePool (.ok ⟨7⟩)).Get = (some { session := some ⟨7⟩ }, none) ∧
    (∃ err, (samplePool (.error (.sentinel .ErrLimitExceeded))).Get = (none, some err) ∧
      Cause err = .sentinel .ErrServiceUnavailable) ∧
    (∃ err, (samplePool (.error (.sentinel .ErrServiceUnavailable))).Get = (none, some err) ∧
      Cause err ≠ .sentinel .ErrServiceUnavailable) :=
  ⟨(Pool_Get_outcomes (samplePool (.ok ⟨7⟩))).1 ⟨7⟩ rfl,
    (Pool_Get_outcomes (samplePool (.error (.sentinel .ErrLimitExceeded)))).2.1 rfl,
    (Pool_Get_outcomes (samplePool (.error (.sentinel .ErrServiceUnavailable)))).2.2 _
      (by decide) rfl⟩

/-- C14: for every operation and every context to which no store is bound, the callback
`GetACL` returns an error and no ACL; when a store is bound it returns exactly the result of
`aclForOp` of that store for the operation. -/
theorem GetACL_fails_closed {Ctx : Type} (storeFromContext : Ctx → Option Store)
    (aclForOp : Store → Op → Option (List String) × Option Error) (ctx : Ctx) (op : Op) :
    (storeFromContext ctx = none →
      ∃ err, GetACL storeFromContext aclForOp ctx op = (none, some err)) ∧
    (∀ store, storeFromContext ctx = some store →
      GetACL storeFromContext aclForOp ctx op = aclForOp store op) := by
  refine ⟨?_, ?_⟩
  · intro h
    exact ⟨New "no store found", by simp [GetACL, h]⟩
  · intro store h
    simp [GetACL, h]

/-- The callback on a context without a store and on one with a store. -/
theorem GetACL_fails_closed_witness :
    (∃ err, GetACL (fun c : Option Store => c) (fun _ op => (some [op.Entity], none)) none
      ⟨"global", "login"⟩ = (none, some err)) ∧
    GetACL (fun c : Option Store => c) (fun _ op => (some [op.Entity], none))
      (some { session := none }) ⟨"global", "login"⟩ = (some ["global"], none) :=
  ⟨(GetACL_fails_closed (fun c : Option Store => c) (fun _ op => (some [op.Entity], none)) none
      ⟨"global", "login"⟩).1 rfl,
    (GetACL_fails_closed (fun c : Option Store => c) (fun _ op => (some [op.Entity], none))
      (some { session := none }) ⟨"global", "login"⟩).2 _ rfl⟩

theorem find?_filter_of_imp {α : Type} (q r : α → Bool) (l : List α)
    (h : ∀ e ∈ l, q e = true → r e = true) : (l.filter r).find? q = l.find? q := by
  induction l with
  | nil => rfl
  | cons a l ih =>
    have ih' := ih (fun e he => h e (List.mem_cons_of_mem _ he))
    by_cases hr : r a = true
    · rw [List.filter_cons_of_pos hr]
      simp only [List.find?_cons, ih']
    · rw [List.filter_cons_of_neg hr]
      have hq : q a = false := by
        cases hqa : q a with
        | false => rfl
        | true => exact absurd (h a (List.mem_cons_self _ _) hqa) hr
      simp only [List.find?_cons, hq, ih']

theorem mem_RemoveOld_ids (m : List Entry) (p : String) (t : Time) (id : String) :
    id ∈ (RemoveOld m p t).1 ↔
      ∃ e ∈ m, e.id = id ∧ categoryMatches p e.category = true ∧
        e.created.instant ≤ t.instant := by
  simp only [RemoveOld, List.mem_map, List.mem_filter, isOld, Bool.and_eq_true,
    decide_eq_true_eq]
  constructor
  · rintro ⟨e, ⟨he, h1, h2⟩, hid⟩
    exact ⟨e, he, hid, h1, h2⟩
  · rintro ⟨e, he, hid, h1, h2⟩
    exact ⟨e, ⟨he, h1, h2⟩, hid⟩

/-- C15: `RemoveOld(p, t)` removes exactly the entries whose category matches `p` (every
entry when `p` is empty) and that were created at `t` or before, and returns exactly the ids
of the removed entries; afterwards `Get` of a removed id fails with cause `NotFound` and
`Get` of every other id answers as before. -/
theorem RemoveOld_removes_exactly (m : List Entry) (p : String) (t : Time)
    (hids : (m.map Entry.id).Nodup) :
    (∀ e, e ∈ (RemoveOld m p t).2 ↔
      e ∈ m ∧ ¬ (categoryMatches p e.category = true ∧ e.created.instant ≤ t.instant)) ∧
    (∀ id, id ∈ (RemoveOld m p t).1 ↔
      ∃ e ∈ m, e.id = id ∧ categoryMatches p e.category = true ∧
        e.created.instant ≤ t.instant) ∧
    (∀ c, categoryMatches "" c = true) ∧
    (∀ id ∈ (RemoveOld m p t).1, ∃ err, meetingGet (RemoveOld m p t).2 id = .error err ∧
      Cause err = .sentinel .ErrNotFound) ∧
    (∀ id, id ∉ (RemoveOld m p t).1 → meetingGet (RemoveOld m p t).2 id = meetingGet m id) := by
  refine ⟨?_, mem_RemoveOld_ids m p t, ?_, ?_, ?_⟩
  · intro e
    simp only [RemoveOld, List.mem_filter, isOld, Bool.not_eq_true', Bool.and_eq_false_iff,
      decide_eq_false_iff_not, not_and]
    constructor
    · rintro ⟨he, h⟩
      refine ⟨he, fun h1 h2 => ?_⟩
      rcases h with h | h
      · rw [h1] at h; exact Bool.noConfusion h
      · exact h h2
    · rintro ⟨he, h⟩
      refine ⟨he, ?_⟩
      cases hc : categoryMatches p e.category with
      | false => exact Or.inl rfl
      | true => exact Or.inr (h hc)
  · intro c
    simp [categoryMatches]
  · intro id hid
    obtain ⟨e, he, heid, h1, h2⟩ := (mem_RemoveOld_ids m p t id).mp hid
    have hnone : ((RemoveOld m p t).2).find? (fun x => x.id == id) = none := by
      rw [List.find?_eq_none]
      intro x hx
      simp only [RemoveOld, List.mem_filter, Bool.not_eq_true', isOld, Bool.and_eq_false_iff,
        decide_eq_false_iff_not] at hx
      intro hxid
      have hxe : x = e := by
        have hinj := List.inj_on_of_nodup_map hids hx.1 he
        exact hinj ((beq_iff_eq.mp hxid).trans heid.symm)
      subst hxe
      rcases hx.2 with h | h
      · rw [h1] at h; exact Bool.noConfusion h
      · exact h h2
    refine ⟨WithCausef none .ErrNotFound "rendezvous not found, probably expired", ?_, rfl⟩
    unfold meetingGet
    rw [hnone]
  · intro id hid
    have hfind : ((RemoveOld m p t).2).find? (fun x => x.id == id) =
        m.find? (fun x => x.id == id) := by
      apply find?_filter_of_imp
      intro e he hq
      cases hold : isOld p t e with
      | false => rfl
      | true =>
        exfalso
        apply hid
        simp only [isOld, Bool.and_eq_true, decide_eq_true_eq] at hold
        exact (mem_RemoveOld_ids m p t id).mpr ⟨e, he, beq_iff_eq.mp hq, hold.1, hold.2⟩
    unfold meetingGet
    rw [hfind]

/-- The scenario of `TestRemoveOld`, with `now` at 1000000 milliseconds: the first sweep
returns `a6` to `a9`, the second one `a2` to `a5` and `b2` to `b9`. -/
theorem RemoveOld_removes_exactly_witness :
    sortStrings (RemoveOld (testEntries 1000000) "a" ⟨1000000 - 5500⟩).1 =
      ["a6", "a7", "a8", "a9"] ∧
    sortStrings (RemoveOld (RemoveOld (testEntries 1000000) "a" ⟨1000000 - 5500⟩).2 ""
      ⟨1000000 - 1500⟩).1 =
      ["a2", "a3", "a4", "a5", "b2", "b3", "b4", "b5", "b6", "b7", "b8", "b9"] ∧
    (∀ id ∈ (RemoveOld (testEntries 1000000) "a" ⟨1000000 - 5500⟩).1,
      ∃ err, meetingGet (RemoveOld (testEntries 1000000) "a" ⟨1000000 - 5500⟩).2 id =
        .error err ∧ Cause err = .sentinel .ErrNotFound) ∧
    (∀ id, id ∉ (RemoveOld (testEntries 1000000) "a" ⟨1000000 - 5500⟩).1 →
      meetingGet (RemoveOld (testEntries 1000000) "a" ⟨1000000 - 5500⟩).2 id =
        meetingGet (testEntries 1000000) id) :=
  ⟨by decide, by decide,
    (RemoveOld_removes_exactly (testEntries 1000000) "a" ⟨1000000 - 5500⟩
      (by decide)).2.2.2.1,
    (RemoveOld_removes_exactly (testEntries 1000000) "a" ⟨1000000 - 5500⟩
      (by decide)).2.2.2.2⟩

end Store
